import Mathlib

/-!
Verification of the Callsheet-extractor core: the document-routing pipeline
and the post-extraction normalization/deduplication engine.

Strings are modelled as lists of characters (`Str`), machine text operations
as explicit list functions mirroring the JavaScript/TypeScript source:
`trim`, `replace` with whitespace collapsing, `split`, `join`,
`toLowerCase`/`toUpperCase` (the ASCII fragment, extended to full case
mapping where that is load-bearing), `includes`, `startsWith`.
Nullable values are `Option`; JavaScript truthiness on nullable strings
(null and the empty string are both falsy) is modelled explicitly.
-/

abbrev Str := List Char

/-- ASCII whitespace, the model of the JS `\s` class and of `String.trim`. -/
def isSpaceChar (c : Char) : Bool :=
  c = ' ' || c = '\t' || c = '\n' || c = '\r'

/-- The 26 ASCII letter pairs, upper case first. -/
def letterPairs : List (Char × Char) :=
  [('A', 'a'), ('B', 'b'), ('C', 'c'), ('D', 'd'), ('E', 'e'), ('F', 'f'),
   ('G', 'g'), ('H', 'h'), ('I', 'i'), ('J', 'j'), ('K', 'k'), ('L', 'l'),
   ('M', 'm'), ('N', 'n'), ('O', 'o'), ('P', 'p'), ('Q', 'q'), ('R', 'r'),
   ('S', 's'), ('T', 't'), ('U', 'u'), ('V', 'v'), ('W', 'w'), ('X', 'x'),
   ('Y', 'y'), ('Z', 'z')]

/-- The ASCII fragment of JS `toLowerCase` on one character. JS implements
Unicode full case conversion; `toLowerFull`/`toUpperFull` below extend
these maps beyond ASCII (where the two disagree, e.g. on `ß`), and every
use of the ASCII fragment is on ASCII data, where they agree. -/
def toLowerChar (c : Char) : Char :=
  match letterPairs.find? (fun p => p.1 = c) with
  | some p => p.2
  | none => c

/-- The ASCII fragment of JS `toUpperCase` on one character. -/
def toUpperChar (c : Char) : Char :=
  match letterPairs.find? (fun p => p.2 = c) with
  | some p => p.1
  | none => c

/-- Model of JS `String.prototype.startsWith`: `begins pat s` iff `pat` is a
leading segment of `s`. -/
def begins : Str → Str → Bool
  | [], _ => true
  | _ :: _, [] => false
  | p :: ps, c :: cs => p = c && begins ps cs

/-- Model of JS `String.prototype.includes`: contiguous-substring test. -/
def containsSeq (pat s : Str) : Bool :=
  (List.range (s.length + 1)).any (fun i => begins pat (s.drop i))

/-- Left half of JS `trim`. -/
def ltrimWS (s : Str) : Str := s.dropWhile isSpaceChar

/-- Right half of JS `trim`. -/
def rtrimWS (s : Str) : Str := (s.reverse.dropWhile isSpaceChar).reverse

/-- Model of JS `String.prototype.trim` (ASCII whitespace). -/
def jsTrim (s : Str) : Str := rtrimWS (ltrimWS s)

theorem length_dropWhile_le (p : Char → Bool) (s : Str) :
    (s.dropWhile p).length ≤ s.length := by
  induction s with
  | nil => simp [List.dropWhile]
  | cons c cs ih =>
    by_cases h : p c
    · simp [List.dropWhile, h]; omega
    · simp [List.dropWhile, h]

/-- State machine for `collapseWS`: the flag records whether the scanner is
inside a whitespace run whose single replacement space was already emitted. -/
def collapseWSAux : Bool → Str → Str
  | _, [] => []
  | inRun, c :: cs =>
    if isSpaceChar c then
      if inRun then collapseWSAux true cs else ' ' :: collapseWSAux true cs
    else c :: collapseWSAux false cs

/-- Model of JS `replace(/\s+/g, " ")`: every maximal whitespace run becomes
a single space. -/
def collapseWS (s : Str) : Str := collapseWSAux false s

/-- Split at every single whitespace character, keeping empty pieces. -/
def splitWS : Str → List Str
  | [] => [[]]
  | c :: cs =>
    if isSpaceChar c then [] :: splitWS cs
    else
      match splitWS cs with
      | [] => [[c]]
      | w :: ws => (c :: w) :: ws

/-- The whitespace-delimited words of a string. -/
def wordsOf (s : Str) : List Str := (splitWS s).filter (fun w => w ≠ [])

/-- Model of JS `String.prototype.split` with a one-character separator. -/
def jsSplit (sep : Char) : Str → List Str
  | [] => [[]]
  | c :: cs =>
    if c = sep then [] :: jsSplit sep cs
    else
      match jsSplit sep cs with
      | [] => [[c]]
      | w :: ws => (c :: w) :: ws

/-- Model of JS `Array.prototype.join` with a string separator. -/
def joinSep (sep : Str) : List Str → Str
  | [] => []
  | [w] => w
  | w :: ws => w ++ sep ++ joinSep sep ws

/-! ## Phone normalizer

From `PhoneNormalizer` (phone.normalizer.ts): `normalize` strips the input to
its digit content (a leading `+` is detected but never used afterwards) and
formats by digit count; `isValid` accepts 7 to 15 digits. -/

namespace PhoneNormalizer

/-- `formatUS`: `(AAA) EEE-SSSS` from a ten-digit string. -/
def formatUS (digits : Str) : Str :=
  let areaCode := digits.take 3
  let exchange := (digits.drop 3).take 3
  let subscriber := (digits.drop 6).take 4
  '(' :: areaCode ++ ')' :: ' ' :: exchange ++ '-' :: subscriber

/-- `PhoneNormalizer.normalize` from the source: keep digits and plus signs,
record then discard the leading plus, and branch on the digit count. -/
def normalize (phone : Option Str) : Option Str :=
  match phone with
  | none => none
  | some p =>
    if p = [] then none       -- `if (!phone) return null` also catches ""
    else
      -- `phone.replace(/[^\d+]/g, "")` then `digits.replace(/\D/g, "")`;
      -- the `hasPlus` flag computed in between is dead code.
      let step1 := p.filter (fun c => c.isDigit || c = '+')
      let digits := step1.filter (fun c => c.isDigit)
      if digits.length = 0 then none
      else if digits.length = 10 then some (formatUS digits)
      else if digits.length = 11 ∧ begins ['1'] digits then
        some (formatUS (digits.drop 1))
      else if 11 < digits.length then some ('+' :: digits)
      else if digits.length = 7 then
        some (digits.take 3 ++ '-' :: digits.drop 3)
      else some digits

/-- `PhoneNormalizer.isValid` from the source. -/
def isValid (phone : Option Str) : Bool :=
  match phone with
  | none => false
  | some p =>
    if p = [] then false      -- `if (!phone) return false` also catches ""
    else
      let digits := p.filter (fun c => c.isDigit)
      decide (7 ≤ digits.length) && decide (digits.length ≤ 15)

end PhoneNormalizer

/-- Restatement of the phone-normalization claim in the spec's own words,
amended for the zero-digit case: strip everything except digits (the leading
plus is discarded); with no digits at all the result is null; 10 digits are
formatted `(AAA) EEE-SSSS`; 11 digits led by `1` drop the `1` and use the
10-digit format; more than 11 digits yield `+` plus the digits; exactly 7
digits yield `EEE-SSSS`; any other count yields the raw digit string. -/
def phoneSpecNormalize (p : Str) : Option Str :=
  let digits := p.filter (fun c => c.isDigit)
  if digits.length = 0 then none
  else if digits.length = 10 then some (PhoneNormalizer.formatUS digits)
  else if digits.length = 11 ∧ begins ['1'] digits then
    some (PhoneNormalizer.formatUS (digits.drop 1))
  else if 11 < digits.length then some ('+' :: digits)
  else if digits.length = 7 then some (digits.take 3 ++ '-' :: digits.drop 3)
  else some digits

theorem filter_digit_of_filter_digit_plus (p : Str) :
    (p.filter (fun c => c.isDigit || c = '+')).filter (fun c => c.isDigit)
      = p.filter (fun c => c.isDigit) := by
  induction p with
  | nil => rfl
  | cons c cs ih =>
    by_cases hd : c.isDigit
    · simp [List.filter, hd, ih]
    · by_cases hp : c = '+'
      · simp [List.filter, hd, hp, ih]
      · simp [List.filter, hd, hp, ih]

theorem phone_normalize_eq_spec (p : Str) :
    PhoneNormalizer.normalize (some p) = phoneSpecNormalize p := by
  unfold PhoneNormalizer.normalize phoneSpecNormalize
  rcases hp : p with _ | ⟨c, cs⟩
  · rfl
  · simp only [filter_digit_of_filter_digit_plus]
    rfl

/-- C3 counterexample. The claim as stated says any digit count other than
10, 11-with-leading-1, >11 and 7 returns "the raw stripped digit string
unchanged"; but for an input with no digits at all (digit count 0, e.g.
`"ext. TBD"`) the source returns null, not the empty stripped digit string. -/
theorem C3_phone_zero_digits_counterexample :
    PhoneNormalizer.normalize (some ("ext. TBD".toList)) = none ∧
    PhoneNormalizer.normalize (some ("ext. TBD".toList))
      ≠ some (("ext. TBD".toList).filter (fun c => c.isDigit)) := by
  constructor
  · rfl
  · decide

/-- C3 (amended): for every non-null input, `PhoneNormalizer.normalize`
agrees with the spec's branch table completed with the zero-digit case
(no digits at all → null); the three concrete examples hold; and `isValid`
accepts a non-null phone iff its digit count lies in `[7, 15]`. -/
theorem C3_phone_normalizer :
    (∀ p : Str, PhoneNormalizer.normalize (some p) = phoneSpecNormalize p) ∧
    PhoneNormalizer.normalize (some ("555-123-4567".toList))
      = some ("(555) 123-4567".toList) ∧
    PhoneNormalizer.normalize (some ("15551234567".toList))
      = some ("(555) 123-4567".toList) ∧
    PhoneNormalizer.normalize (some ("+442012345678".toList))
      = some ("+442012345678".toList) ∧
    (∀ p : Str, PhoneNormalizer.isValid (some p) = true ↔
      (7 ≤ (p.filter (fun c => c.isDigit)).length ∧
        (p.filter (fun c => c.isDigit)).length ≤ 15)) := by
  refine ⟨phone_normalize_eq_spec, by decide, by decide, by decide, fun p => ?_⟩
  unfold PhoneNormalizer.isValid
  rcases hp : p with _ | ⟨c, cs⟩
  · simp
  · simp [← hp]
    rw [hp]
    simp [Bool.and_eq_true, decide_eq_true_eq]

/-! ## Name normalizer

From `NameNormalizer` (name.normalizer.ts): Title Case with special prefixes
(`mc`, `mac`, `o'`), lowercase particles away from the first word, and
per-segment capitalization of hyphenated words. -/

namespace NameNormalizer

/-- Words kept lowercase unless they start the name. -/
def lowercaseWords : List Str :=
  ["de".toList, "del".toList, "della".toList, "di".toList, "da".toList,
   "van".toList, "von".toList, "der".toList, "den".toList, "la".toList,
   "le".toList, "du".toList]

/-- `capitalize`: first character upper case, remainder lower case. -/
def capitalize : Str → Str
  | [] => []
  | c :: cs => toUpperChar c :: cs.map toLowerChar

/-- The per-word step of `NameNormalizer.normalize`: the body of the
`words.map((word, index) => ...)` callback. -/
def normalizeWord (index : ℕ) (word : Str) : Str :=
  if word = [] then word
  else
    let lowerWord := word.map toLowerChar
    -- special prefixes, in source order: "mc", "mac", "o'"
    if begins ("mc".toList) lowerWord ∧ 2 < lowerWord.length then
      capitalize ("mc".toList) ++ capitalize (word.drop 2)
    else if begins ("mac".toList) lowerWord ∧ 3 < lowerWord.length then
      capitalize ("mac".toList) ++ capitalize (word.drop 3)
    else if begins ['o', '\''] lowerWord ∧ 2 < lowerWord.length then
      ['O', '\''] ++ capitalize (word.drop 2)
    else if 0 < index ∧ lowerWord ∈ lowercaseWords then lowerWord
    else if '-' ∈ word then
      joinSep ['-'] ((jsSplit '-' word).map capitalize)
    else capitalize word

/-- Indexed map, the model of `Array.prototype.map` with an index argument. -/
def mapIdxFrom (f : ℕ → Str → Str) (i : ℕ) : List Str → List Str
  | [] => []
  | w :: ws => f i w :: mapIdxFrom f (i + 1) ws

/-- `NameNormalizer.normalize` from the source: trim, collapse whitespace,
split on single spaces, normalize each word, join with single spaces. -/
def normalize (name : Option Str) : Option Str :=
  match name with
  | none => none
  | some s =>
    if s = [] then none       -- `if (!name) return null` also catches ""
    else
      let normalized := collapseWS (jsTrim s)
      if normalized = [] then none
      else some (joinSep [' '] (mapIdxFrom normalizeWord 0 (jsSplit ' ' normalized)))

/-- `NameNormalizer.isValid` from the source: trimmed length at least 2 and
at least one ASCII letter. -/
def isValid (name : Option Str) : Bool :=
  match name with
  | none => false
  | some s =>
    if s = [] then false      -- `if (!name) return false` also catches ""
    else
      let trimmed := jsTrim s
      decide (2 ≤ trimmed.length) && trimmed.any (fun c => c.isAlpha)

end NameNormalizer

example : NameNormalizer.normalize (some ("mcdonald".toList))
    = some ("McDonald".toList) := by decide
example : NameNormalizer.normalize (some (['o', '\''] ++ "brien".toList))
    = some (['O', '\''] ++ "Brien".toList) := by decide
example : NameNormalizer.normalize (some ("jean-claude van damme".toList))
    = some ("Jean-Claude van Damme".toList) := by decide
example : NameNormalizer.normalize (some ("  dave   smith ".toList))
    = some ("Dave Smith".toList) := by decide

/-! ## Character-level facts about the ASCII case maps -/

def upperChars : List Char :=
  ['A', 'B', 'C', 'D', 'E', 'F', 'G', 'H', 'I', 'J', 'K', 'L', 'M',
   'N', 'O', 'P', 'Q', 'R', 'S', 'T', 'U', 'V', 'W', 'X', 'Y', 'Z']

def lowerChars : List Char :=
  ['a', 'b', 'c', 'd', 'e', 'f', 'g', 'h', 'i', 'j', 'k', 'l', 'm',
   'n', 'o', 'p', 'q', 'r', 's', 't', 'u', 'v', 'w', 'x', 'y', 'z']

theorem toLowerChar_of_not_upper {c : Char} (hc : c ∉ upperChars) :
    toLowerChar c = c := by
  unfold toLowerChar
  have h : letterPairs.find? (fun p => p.1 = c) = none := by
    rw [List.find?_eq_none]
    intro q hq
    fin_cases hq <;>
      exact fun h => hc ((of_decide_eq_true h) ▸ (by decide))
  rw [h]

theorem toUpperChar_of_not_lower {c : Char} (hc : c ∉ lowerChars) :
    toUpperChar c = c := by
  unfold toUpperChar
  have h : letterPairs.find? (fun p => p.2 = c) = none := by
    rw [List.find?_eq_none]
    intro q hq
    fin_cases hq <;>
      exact fun h => hc ((of_decide_eq_true h) ▸ (by decide))
  rw [h]

theorem toLowerChar_toLowerChar (c : Char) :
    toLowerChar (toLowerChar c) = toLowerChar c := by
  by_cases hc : c ∈ upperChars
  · simp only [upperChars] at hc
    fin_cases hc <;> decide
  · simp only [toLowerChar_of_not_upper hc]

theorem toLowerChar_toUpperChar (c : Char) :
    toLowerChar (toUpperChar c) = toLowerChar c := by
  by_cases hc : c ∈ lowerChars
  · simp only [lowerChars] at hc
    fin_cases hc <;> decide
  · simp only [toUpperChar_of_not_lower hc]

theorem toUpperChar_toUpperChar (c : Char) :
    toUpperChar (toUpperChar c) = toUpperChar c := by
  by_cases hc : c ∈ lowerChars
  · simp only [lowerChars] at hc
    fin_cases hc <;> decide
  · simp only [toUpperChar_of_not_lower hc]

theorem isSpaceChar_toLowerChar (c : Char) :
    isSpaceChar (toLowerChar c) = isSpaceChar c := by
  by_cases hc : c ∈ upperChars
  · simp only [upperChars] at hc
    fin_cases hc <;> decide
  · simp only [toLowerChar_of_not_upper hc]

theorem isSpaceChar_toUpperChar (c : Char) :
    isSpaceChar (toUpperChar c) = isSpaceChar c := by
  by_cases hc : c ∈ lowerChars
  · simp only [lowerChars] at hc
    fin_cases hc <;> decide
  · simp only [toUpperChar_of_not_lower hc]

theorem toLowerChar_eq_dash (c : Char) : toLowerChar c = '-' ↔ c = '-' := by
  by_cases hc : c ∈ upperChars
  · simp only [upperChars] at hc
    fin_cases hc <;> decide
  · simp only [toLowerChar_of_not_upper hc]

theorem toUpperChar_eq_dash (c : Char) : toUpperChar c = '-' ↔ c = '-' := by
  by_cases hc : c ∈ lowerChars
  · simp only [lowerChars] at hc
    fin_cases hc <;> decide
  · simp only [toUpperChar_of_not_lower hc]

/-! ## Canonical-form facts about trim, collapse and word splitting -/

def noWS (w : Str) : Prop := ∀ c ∈ w, isSpaceChar c = false

theorem splitWS_ne_nil (s : Str) : splitWS s ≠ [] := by
  cases s with
  | nil => simp [splitWS]
  | cons c cs =>
    by_cases h : isSpaceChar c
    · simp [splitWS, h]
    · simp only [splitWS, h]
      rcases hs : splitWS cs with _ | ⟨w, ws⟩ <;> simp

theorem splitWS_noWS (s : Str) : ∀ p ∈ splitWS s, noWS p := by
  induction s with
  | nil =>
    intro p hp
    have hp2 : p = [] := by simpa [splitWS] using hp
    simp [hp2, noWS]
  | cons c cs ih =>
    intro p hp
    cases hb : isSpaceChar c with
    | false =>
      rcases hs : splitWS cs with _ | ⟨w, ws⟩
      · exact absurd hs (splitWS_ne_nil cs)
      · rw [show splitWS (c :: cs) = (c :: w) :: ws from by
          simp [splitWS, hb, hs]] at hp
        rcases List.mem_cons.mp hp with hp | hp
        · subst hp
          intro x hx
          rcases List.mem_cons.mp hx with hx | hx
          · subst hx; exact hb
          · exact ih w (by rw [hs]; exact List.mem_cons_self _ _) x hx
        · exact ih p (by rw [hs]; exact List.mem_cons_of_mem _ hp)
    | true =>
      rw [show splitWS (c :: cs) = [] :: splitWS cs from by
        simp [splitWS, hb]] at hp
      rcases List.mem_cons.mp hp with hp | hp
      · simp [hp, noWS]
      · exact ih p hp

theorem wordsOf_nil : wordsOf [] = [] := by decide

theorem wordsOf_cons_ws {c : Char} (cs : Str) (h : isSpaceChar c = true) :
    wordsOf (c :: cs) = wordsOf cs := by
  simp [wordsOf, splitWS, h]

theorem wordsOf_mem {s : Str} {w : Str} (hw : w ∈ wordsOf s) :
    w ≠ [] ∧ noWS w := by
  unfold wordsOf at hw
  rw [List.mem_filter] at hw
  exact ⟨by simpa using hw.2, splitWS_noWS s w hw.1⟩

theorem splitWS_append_noWS {w : Str} (t : Str) (hw : noWS w)
    {p : Str} {l : List Str} (h : splitWS t = p :: l) :
    splitWS (w ++ t) = (w ++ p) :: l := by
  induction w with
  | nil => simpa using h
  | cons c cw ih =>
    have hc : isSpaceChar c = false := hw c (by simp)
    have hcw : noWS cw := fun x hx => hw x (by simp [hx])
    have h2 := ih hcw
    simp only [List.cons_append, splitWS, hc, Bool.false_eq_true, if_false,
      List.append_eq]
    rw [h2]

theorem wordsOf_eq_nil_iff (s : Str) :
    wordsOf s = [] ↔ ∀ c ∈ s, isSpaceChar c = true := by
  induction s with
  | nil => simp [wordsOf_nil]
  | cons c cs ih =>
    by_cases h : isSpaceChar c
    · rw [wordsOf_cons_ws cs h, ih]
      simp [h]
    · constructor
      · intro hw
        exfalso
        rcases hs : splitWS cs with _ | ⟨p, l⟩
        · exact absurd hs (splitWS_ne_nil cs)
        · have : splitWS (c :: cs) = (c :: p) :: l := by
            have := splitWS_append_noWS (w := [c]) cs
              (by intro x hx; simp at hx; simp [hx, h]) hs
            simpa using this
          unfold wordsOf at hw
          rw [this] at hw
          simp [List.filter] at hw
      · intro hall
        exact absurd (hall c (by simp)) (by simp [h])

theorem dropWhile_of_all_neg {p : Char → Bool} {l : Str}
    (h : ∀ c ∈ l, p c = false) : l.dropWhile p = l := by
  cases l with
  | nil => rfl
  | cons c cs => rw [List.dropWhile_cons_of_neg (by simp [h c (by simp)])]

theorem rtrimWS_append_noWS (w r : Str) (hw : noWS w) :
    rtrimWS (w ++ r) = w ++ rtrimWS r := by
  unfold rtrimWS
  rw [List.reverse_append, List.dropWhile_append]
  by_cases h : (r.reverse.dropWhile isSpaceChar).isEmpty
  · rw [if_pos h]
    rw [List.isEmpty_iff] at h
    rw [h]
    rw [dropWhile_of_all_neg (fun c hc => hw c (by simpa using hc))]
    simp
  · rw [if_neg h]
    simp

theorem rtrimWS_cons_of_ne_nil (d : Char) (r : Str) (h : rtrimWS r ≠ []) :
    rtrimWS (d :: r) = d :: rtrimWS r := by
  unfold rtrimWS at *
  have hne : ¬ (r.reverse.dropWhile isSpaceChar).isEmpty := by
    rw [List.isEmpty_iff]
    intro hh
    exact h (by rw [hh]; rfl)
  rw [show (d :: r).reverse = r.reverse ++ [d] from by simp]
  rw [List.dropWhile_append, if_neg hne]
  simp

theorem rtrimWS_eq_nil_iff (r : Str) :
    rtrimWS r = [] ↔ ∀ c ∈ r, isSpaceChar c = true := by
  unfold rtrimWS
  rw [List.reverse_eq_nil_iff, List.dropWhile_eq_nil_iff]
  constructor
  · intro h c hc
    exact h c (by simpa using hc)
  · intro h c hc
    exact h c (by simpa using hc)

theorem ltrimWS_eq_nil_iff (r : Str) :
    ltrimWS r = [] ↔ ∀ c ∈ r, isSpaceChar c = true := by
  unfold ltrimWS
  rw [List.dropWhile_eq_nil_iff]

theorem ltrimWS_cons_ws {c : Char} (cs : Str) (h : isSpaceChar c = true) :
    ltrimWS (c :: cs) = ltrimWS cs := by
  unfold ltrimWS
  rw [List.dropWhile_cons_of_pos (by simp [h])]

theorem ltrimWS_cons_nonws {c : Char} (cs : Str) (h : isSpaceChar c = false) :
    ltrimWS (c :: cs) = c :: cs := by
  unfold ltrimWS
  rw [List.dropWhile_cons_of_neg (by simp [h])]

theorem noWS_singleton {c : Char} (h : isSpaceChar c = false) : noWS [c] := by
  intro x hx
  rw [List.mem_singleton] at hx
  subst hx
  exact h

theorem rtrimWS_cons_nonws {c : Char} (cs : Str) (h : isSpaceChar c = false) :
    rtrimWS (c :: cs) = c :: rtrimWS cs := by
  have h2 := rtrimWS_append_noWS [c] cs (noWS_singleton h)
  simpa using h2

theorem ltrim_rtrim_comm (s : Str) :
    ltrimWS (rtrimWS s) = rtrimWS (ltrimWS s) := by
  induction s with
  | nil => rfl
  | cons c cs ih =>
    cases hb : isSpaceChar c with
    | false =>
      rw [rtrimWS_cons_nonws cs hb, ltrimWS_cons_nonws _ hb,
        ltrimWS_cons_nonws _ hb, rtrimWS_cons_nonws cs hb]
    | true =>
      rw [ltrimWS_cons_ws cs hb]
      by_cases hr : rtrimWS cs = []
      · have h2 : rtrimWS (c :: cs) = [] := by
          rw [rtrimWS_eq_nil_iff] at hr ⊢
          intro x hx
          rcases List.mem_cons.mp hx with hx | hx
          · subst hx; exact hb
          · exact hr x hx
        rw [h2, ← ih, hr]
      · rw [rtrimWS_cons_of_ne_nil c cs hr, ltrimWS_cons_ws _ hb]
        exact ih

theorem collapseWSAux_false_append (w x : Str) (hw : noWS w) :
    collapseWSAux false (w ++ x) = w ++ collapseWSAux false x := by
  induction w with
  | nil => rfl
  | cons c cw ih =>
    have hc : isSpaceChar c = false := hw c (by simp)
    have hcw : noWS cw := fun d hd => hw d (by simp [hd])
    simp only [List.cons_append, collapseWSAux, hc, Bool.false_eq_true,
      if_false, List.append_eq]
    rw [ih hcw]

theorem collapseWSAux_true_eq (x : Str) :
    collapseWSAux true x = collapseWSAux false (x.dropWhile isSpaceChar) := by
  induction x with
  | nil => rfl
  | cons c cs ih =>
    cases hb : isSpaceChar c with
    | false =>
      rw [List.dropWhile_cons_of_neg (by simp [hb])]
      simp [collapseWSAux, hb]
    | true =>
      rw [List.dropWhile_cons_of_pos (by simp [hb])]
      simpa [collapseWSAux, hb] using ih

theorem joinSep_cons (sep : Str) (w : Str) (ws : List Str) :
    joinSep sep (w :: ws)
      = if ws = [] then w else w ++ sep ++ joinSep sep ws := by
  cases ws <;> simp [joinSep]

theorem joinSep_ne_nil (sep : Str) (ws : List Str) (hne : ws ≠ [])
    (h : ∀ w ∈ ws, w ≠ []) : joinSep sep ws ≠ [] := by
  cases ws with
  | nil => exact absurd rfl hne
  | cons w l =>
    rw [joinSep_cons]
    by_cases hl : l = []
    · rw [if_pos hl]
      exact h w (by simp)
    · rw [if_neg hl]
      intro hx
      have h1 := (List.append_eq_nil.mp hx).1
      exact h w (by simp) (List.append_eq_nil.mp h1).1

theorem dropWhile_head_false {p : Char → Bool} {l : Str} {d : Char} {t : Str}
    (h : l.dropWhile p = d :: t) : p d = false := by
  induction l with
  | nil => simp at h
  | cons c cs ih =>
    cases hc : p c with
    | true =>
      rw [List.dropWhile_cons_of_pos (by simp [hc])] at h
      exact ih h
    | false =>
      rw [List.dropWhile_cons_of_neg (by simp [hc])] at h
      obtain ⟨h1, -⟩ := List.cons_eq_cons.mp h
      rw [← h1]
      exact hc

/-- The source's `trim` + whitespace collapsing produces exactly the
whitespace-delimited words joined by single spaces. -/
theorem collapse_trim_eq_words (s : Str) :
    collapseWS (jsTrim s) = joinSep [' '] (wordsOf s) := by
  suffices h : ∀ (n : ℕ) (t : Str), t.length ≤ n →
      collapseWS (jsTrim t) = joinSep [' '] (wordsOf t) by
    exact h s.length s le_rfl
  intro n
  induction n with
  | zero =>
    intro t ht
    rw [List.length_eq_zero.mp (Nat.le_zero.mp ht)]
    rfl
  | succ n ih =>
    intro t ht
    cases t with
    | nil => rfl
    | cons c cs =>
      simp only [List.length_cons, Nat.succ_le_succ_iff] at ht
      cases hb : isSpaceChar c with
      | true =>
        rw [wordsOf_cons_ws cs hb,
          show jsTrim (c :: cs) = jsTrim cs from by
            unfold jsTrim
            rw [ltrimWS_cons_ws cs hb]]
        exact ih cs ht
      | false =>
        obtain ⟨w, hw⟩ : ∃ w, cs.takeWhile (fun d => !isSpaceChar d) = w :=
          ⟨_, rfl⟩
        obtain ⟨r, hr⟩ : ∃ r, cs.dropWhile (fun d => !isSpaceChar d) = r :=
          ⟨_, rfl⟩
        have hcs : w ++ r = cs := by
          rw [← hw, ← hr]
          exact List.takeWhile_append_dropWhile _ _
        have hnw : noWS (c :: w) := by
          intro x hx
          rcases List.mem_cons.mp hx with hx | hx
          · subst hx; exact hb
          · have hx2 : x ∈ cs.takeWhile (fun d => !isSpaceChar d) := by
              rw [hw]; exact hx
            have h2 := List.mem_takeWhile_imp hx2
            simpa using h2
        have hdr : ∀ d r', r = d :: r' → isSpaceChar d = true := by
          intro d r' hr2
          have h2 : cs.dropWhile (fun d => !isSpaceChar d) = d :: r' := by
            rw [hr, hr2]
          have h3 := dropWhile_head_false h2
          simpa using h3
        have htrim : jsTrim (c :: cs) = (c :: w) ++ rtrimWS r := by
          unfold jsTrim
          rw [ltrimWS_cons_nonws cs hb,
            show c :: cs = (c :: w) ++ r from by rw [List.cons_append, hcs],
            rtrimWS_append_noWS _ _ hnw]
        rcases hs : splitWS r with _ | ⟨p, l⟩
        · exact absurd hs (splitWS_ne_nil r)
        have hp : p = [] ∧ wordsOf r = l.filter (fun x => x ≠ []) := by
          cases hr2 : r with
          | nil =>
            rw [hr2] at hs
            rw [show splitWS [] = [[]] from rfl] at hs
            obtain ⟨h1, h2⟩ := List.cons_eq_cons.mp hs
            exact ⟨h1.symm, by rw [wordsOf_nil, ← h2]; rfl⟩
          | cons d r' =>
            have hd := hdr d r' hr2
            rw [hr2] at hs
            rw [show splitWS (d :: r') = [] :: splitWS r' from by
              simp [splitWS, hd]] at hs
            obtain ⟨h1, h2⟩ := List.cons_eq_cons.mp hs
            refine ⟨h1.symm, ?_⟩
            rw [wordsOf_cons_ws r' hd]
            unfold wordsOf
            rw [← h2]
        have hsplit : splitWS (c :: cs) = ((c :: w) ++ p) :: l := by
          rw [show c :: cs = (c :: w) ++ r from by rw [List.cons_append, hcs]]
          exact splitWS_append_noWS r hnw hs
        have hwords : wordsOf (c :: cs) = (c :: w) :: wordsOf r := by
          unfold wordsOf
          rw [hsplit, hp.1, List.append_nil, List.filter_cons,
            if_pos (by simp)]
          congr 1
          exact hp.2.symm
        rw [htrim, hwords, collapseWS,
          collapseWSAux_false_append _ _ hnw, joinSep_cons]
        by_cases hwr : wordsOf r = []
        · have hrt : rtrimWS r = [] := by
            rw [rtrimWS_eq_nil_iff]
            exact (wordsOf_eq_nil_iff r).mp hwr
          rw [hrt, hwr, if_pos rfl]
          simp [collapseWSAux]
        · rw [if_neg hwr]
          cases hr2 : r with
          | nil => rw [hr2] at hwr; exact absurd wordsOf_nil hwr
          | cons d r' =>
            have hd := hdr d r' hr2
            have hwr' : wordsOf r' ≠ [] := by
              rw [hr2, wordsOf_cons_ws r' hd] at hwr
              exact hwr
            have hrt' : rtrimWS r' ≠ [] := by
              rw [Ne, rtrimWS_eq_nil_iff, ← wordsOf_eq_nil_iff]
              exact hwr'
            rw [rtrimWS_cons_of_ne_nil d r' hrt']
            have hstep : collapseWSAux false (d :: rtrimWS r')
                = ' ' :: collapseWS (jsTrim r') := by
              rw [show collapseWSAux false (d :: rtrimWS r')
                  = ' ' :: collapseWSAux true (rtrimWS r') from by
                simp [collapseWSAux, hd]]
              rw [collapseWSAux_true_eq]
              rw [show (rtrimWS r').dropWhile isSpaceChar
                  = ltrimWS (rtrimWS r') from rfl, ltrim_rtrim_comm]
              rfl
            rw [hstep]
            have hlen : r'.length ≤ n := by
              have h1 : cs.length ≤ n := ht
              have h2 : r.length ≤ cs.length := by
                rw [← hr]
                exact length_dropWhile_le _ cs
              rw [hr2] at h2
              simp only [List.length_cons] at h2
              omega
            rw [ih r' hlen, wordsOf_cons_ws r' hd]
            simp

theorem wordsOf_joinSep (ws : List Str)
    (h : ∀ w ∈ ws, w ≠ [] ∧ noWS w) :
    wordsOf (joinSep [' '] ws) = ws := by
  induction ws with
  | nil => exact wordsOf_nil
  | cons w l ih =>
    obtain ⟨hne, hnw⟩ := h w (by simp)
    cases l with
    | nil =>
      rw [show joinSep [' '] [w] = w from rfl]
      cases w with
      | nil => exact absurd rfl hne
      | cons c cw =>
        have hsp : splitWS ((c :: cw) ++ []) = ((c :: cw) ++ []) :: [] :=
          splitWS_append_noWS [] hnw rfl
        rw [List.append_nil] at hsp
        unfold wordsOf
        rw [hsp, List.filter_cons, if_pos (by simp)]
        rfl
    | cons w2 l2 =>
      rw [show joinSep [' '] (w :: w2 :: l2)
          = w ++ ' ' :: joinSep [' '] (w2 :: l2) from by
        rw [joinSep_cons, if_neg (by simp)]
        simp]
      have hsp2 : splitWS (' ' :: joinSep [' '] (w2 :: l2))
          = [] :: splitWS (joinSep [' '] (w2 :: l2)) := by
        simp [splitWS, isSpaceChar]
      have hsp : splitWS (w ++ ' ' :: joinSep [' '] (w2 :: l2))
          = (w ++ []) :: splitWS (joinSep [' '] (w2 :: l2)) :=
        splitWS_append_noWS _ hnw hsp2
      unfold wordsOf
      rw [hsp, List.append_nil, List.filter_cons, if_pos (by simpa using hne)]
      congr 1
      exact ih (fun x hx => h x (by simp [hx]))

theorem jsSplit_of_not_mem (sep : Char) (p : Str) (h : sep ∉ p) :
    jsSplit sep p = [p] := by
  induction p with
  | nil => rfl
  | cons c cw ih =>
    have hc : ¬ c = sep := fun hx => h (by simp [hx])
    have hcw : sep ∉ cw := fun hx => h (by simp [hx])
    simp only [jsSplit, hc, if_false]
    rw [ih hcw]

theorem jsSplit_append_cons (sep : Char) (p t : Str) (h : sep ∉ p) :
    jsSplit sep (p ++ sep :: t) = p :: jsSplit sep t := by
  induction p with
  | nil => simp [jsSplit]
  | cons c cw ih =>
    have hc : ¬ c = sep := fun hx => h (by simp [hx])
    have hcw : sep ∉ cw := fun hx => h (by simp [hx])
    simp only [List.cons_append, jsSplit, hc, if_false, List.append_eq]
    rw [ih hcw]

theorem jsSplit_joinSep (sep : Char) (ps : List Str) (hne : ps ≠ [])
    (h : ∀ p ∈ ps, sep ∉ p) :
    jsSplit sep (joinSep [sep] ps) = ps := by
  induction ps with
  | nil => exact absurd rfl hne
  | cons p l ih =>
    cases l with
    | nil => exact jsSplit_of_not_mem sep p (h p (by simp))
    | cons p2 l2 =>
      rw [show joinSep [sep] (p :: p2 :: l2)
          = p ++ sep :: joinSep [sep] (p2 :: l2) from by
        rw [joinSep_cons, if_neg (by simp)]
        simp]
      rw [jsSplit_append_cons sep _ _ (h p (by simp))]
      rw [ih (by simp) (fun x hx => h x (by simp [hx]))]

/-- `NameNormalizer.normalize` in words form: split the input into its
whitespace-delimited words, normalize each word by position, join with
single spaces; a wordless input gives null. -/
theorem name_normalize_eq_words (s : Str) :
    NameNormalizer.normalize (some s)
      = (if wordsOf s = [] then none
         else some (joinSep [' ']
           (NameNormalizer.mapIdxFrom NameNormalizer.normalizeWord 0
             (wordsOf s)))) := by
  simp only [NameNormalizer.normalize]
  by_cases hnil : s = []
  · rw [if_pos hnil, hnil, if_pos (by decide)]
  · rw [if_neg hnil]
    by_cases hws : wordsOf s = []
    · rw [if_pos hws]
      have : collapseWS (jsTrim s) = [] := by
        rw [collapse_trim_eq_words, hws]
        rfl
      rw [if_pos this]
    · rw [if_neg hws]
      have hcw : collapseWS (jsTrim s) = joinSep [' '] (wordsOf s) :=
        collapse_trim_eq_words s
      have hjne : joinSep [' '] (wordsOf s) ≠ [] :=
        joinSep_ne_nil _ _ hws (fun w hw => (wordsOf_mem hw).1)
      rw [if_neg (by rw [hcw]; exact hjne)]
      rw [hcw, jsSplit_joinSep ' ' (wordsOf s) hws
        (fun p hp hx => by
          have h2 := (wordsOf_mem hp).2 ' ' hx
          simp [isSpaceChar] at h2)]

/-! ## Per-word facts for the name normalizer -/

namespace NameNormalizer

theorem length_capitalize (w : Str) : (capitalize w).length = w.length := by
  cases w <;> simp [capitalize]

theorem capitalize_ne_nil {w : Str} (h : w ≠ []) : capitalize w ≠ [] := by
  cases w with
  | nil => exact absurd rfl h
  | cons c cw => simp [capitalize]

theorem map_toLower_toLower (w : Str) :
    (w.map toLowerChar).map toLowerChar = w.map toLowerChar := by
  rw [List.map_map]
  exact List.map_congr_left (fun c _ => toLowerChar_toLowerChar c)

theorem map_toLower_capitalize (w : Str) :
    (capitalize w).map toLowerChar = w.map toLowerChar := by
  cases w with
  | nil => rfl
  | cons c cw =>
    simp only [capitalize, List.map_cons, List.map_map]
    rw [toLowerChar_toUpperChar]
    congr 1
    exact List.map_congr_left (fun d _ => toLowerChar_toLowerChar d)

theorem capitalize_capitalize (w : Str) :
    capitalize (capitalize w) = capitalize w := by
  cases w with
  | nil => rfl
  | cons c cw =>
    simp only [capitalize, List.map_map]
    rw [toUpperChar_toUpperChar]
    congr 1
    exact List.map_congr_left (fun d _ => toLowerChar_toLowerChar d)

theorem noWS_capitalize {w : Str} (h : noWS w) : noWS (capitalize w) := by
  cases w with
  | nil => exact h
  | cons c cw =>
    intro x hx
    rcases List.mem_cons.mp hx with hx | hx
    · subst hx
      rw [isSpaceChar_toUpperChar]
      exact h c (by simp)
    · obtain ⟨d, hd, hdx⟩ := List.mem_map.mp hx
      subst hdx
      rw [isSpaceChar_toLowerChar]
      exact h d (by simp [hd])

theorem noWS_map_toLower {w : Str} (h : noWS w) : noWS (w.map toLowerChar) := by
  intro x hx
  obtain ⟨d, hd, hdx⟩ := List.mem_map.mp hx
  subst hdx
  rw [isSpaceChar_toLowerChar]
  exact h d hd

theorem dash_mem_capitalize {w : Str} : '-' ∈ capitalize w ↔ '-' ∈ w := by
  cases w with
  | nil => simp [capitalize]
  | cons c cw =>
    simp only [capitalize, List.mem_cons, List.mem_map]
    constructor
    · rintro (h | ⟨d, hd, hdx⟩)
      · left
        exact ((toUpperChar_eq_dash c).mp h.symm).symm
      · right
        rw [← (toLowerChar_eq_dash d).mp hdx]
        exact hd
    · rintro (h | h)
      · left
        rw [← h]
        decide
      · right
        exact ⟨'-', h, by decide⟩

theorem noWS_joinSep {sep : Str} {ps : List Str} (hsep : noWS sep)
    (h : ∀ p ∈ ps, noWS p) : noWS (joinSep sep ps) := by
  induction ps with
  | nil => intro x hx; simp [joinSep] at hx
  | cons p l ih =>
    rw [joinSep_cons]
    by_cases hl : l = []
    · rw [if_pos hl]
      exact h p (by simp)
    · rw [if_neg hl]
      intro x hx
      rcases List.mem_append.mp hx with hx | hx
      · rcases List.mem_append.mp hx with hx | hx
        · exact h p (by simp) x hx
        · exact hsep x hx
      · exact ih (fun q hq => h q (by simp [hq])) x hx

theorem map_joinSep (f : Char → Char) (sep : Str) (ps : List Str) :
    (joinSep sep ps).map f = joinSep (sep.map f) (ps.map (fun p => p.map f)) := by
  induction ps with
  | nil => rfl
  | cons p l ih =>
    simp only [List.map_cons]
    rw [joinSep_cons, joinSep_cons]
    by_cases hl : l = []
    · rw [if_pos hl, if_pos (by simp [hl])]
    · rw [if_neg hl, if_neg (by simp [hl])]
      simp only [List.map_append]
      rw [ih]

theorem length_joinSep_map (f : Str → Str)
    (hf : ∀ p, (f p).length = p.length) (sep : Str) (ps : List Str) :
    (joinSep sep (ps.map f)).length = (joinSep sep ps).length := by
  induction ps with
  | nil => rfl
  | cons p l ih =>
    simp only [List.map_cons]
    rw [joinSep_cons, joinSep_cons]
    by_cases hl : l = []
    · rw [if_pos (by simp [hl]), if_pos hl]
      exact hf p
    · rw [if_neg (by simp [hl]), if_neg hl]
      simp only [List.length_append]
      rw [ih, hf p]

theorem jsSplit_ne_nil (sep : Char) (s : Str) : jsSplit sep s ≠ [] := by
  cases s with
  | nil => simp [jsSplit]
  | cons c cs =>
    by_cases h : c = sep
    · simp [jsSplit, h]
    · simp only [jsSplit, h, if_false]
      rcases hs : jsSplit sep cs with _ | ⟨w, ws⟩ <;> simp

theorem jsSplit_pieces_not_mem (sep : Char) (s : Str) :
    ∀ p ∈ jsSplit sep s, sep ∉ p := by
  induction s with
  | nil =>
    intro p hp
    have : p = [] := by simpa [jsSplit] using hp
    simp [this]
  | cons c cs ih =>
    intro p hp
    by_cases h : c = sep
    · rw [show jsSplit sep (c :: cs) = [] :: jsSplit sep cs from by
        simp [jsSplit, h]] at hp
      rcases List.mem_cons.mp hp with hp | hp
      · simp [hp]
      · exact ih p hp
    · rcases hs : jsSplit sep cs with _ | ⟨w, ws⟩
      · exact absurd hs (jsSplit_ne_nil sep cs)
      · rw [show jsSplit sep (c :: cs) = (c :: w) :: ws from by
          simp [jsSplit, h, hs]] at hp
        rcases List.mem_cons.mp hp with hp | hp
        · subst hp
          intro hx
          rcases List.mem_cons.mp hx with hx | hx
          · exact h hx.symm
          · exact ih w (by rw [hs]; exact List.mem_cons_self _ _) hx
        · exact ih p (by rw [hs]; exact List.mem_cons_of_mem _ hp)

theorem jsSplit_chars (sep : Char) (s : Str) :
    ∀ p ∈ jsSplit sep s, ∀ c ∈ p, c ∈ s := by
  induction s with
  | nil =>
    intro p hp
    have : p = [] := by simpa [jsSplit] using hp
    simp [this]
  | cons c cs ih =>
    intro p hp x hx
    by_cases h : c = sep
    · rw [show jsSplit sep (c :: cs) = [] :: jsSplit sep cs from by
        simp [jsSplit, h]] at hp
      rcases List.mem_cons.mp hp with hp | hp
      · simp [hp] at hx
      · exact List.mem_cons_of_mem _ (ih p hp x hx)
    · rcases hs : jsSplit sep cs with _ | ⟨w, ws⟩
      · exact absurd hs (jsSplit_ne_nil sep cs)
      · rw [show jsSplit sep (c :: cs) = (c :: w) :: ws from by
          simp [jsSplit, h, hs]] at hp
        rcases List.mem_cons.mp hp with hp | hp
        · subst hp
          rcases List.mem_cons.mp hx with hx | hx
          · simp [hx]
          · exact List.mem_cons_of_mem _
              (ih w (by rw [hs]; exact List.mem_cons_self _ _) x hx)
        · exact List.mem_cons_of_mem _
            (ih p (by rw [hs]; exact List.mem_cons_of_mem _ hp) x hx)

theorem joinSep_jsSplit (sep : Char) (s : Str) :
    joinSep [sep] (jsSplit sep s) = s := by
  induction s with
  | nil => rfl
  | cons c cs ih =>
    by_cases h : c = sep
    · rw [show jsSplit sep (c :: cs) = [] :: jsSplit sep cs from by
        simp [jsSplit, h]]
      rw [joinSep_cons, if_neg (jsSplit_ne_nil sep cs)]
      rw [List.nil_append, h, List.singleton_append, ih]
    · rcases hs : jsSplit sep cs with _ | ⟨w, ws⟩
      · exact absurd hs (jsSplit_ne_nil sep cs)
      · rw [show jsSplit sep (c :: cs) = (c :: w) :: ws from by
          simp [jsSplit, h, hs]]
        rw [joinSep_cons]
        rw [hs, joinSep_cons] at ih
        by_cases hw : ws = []
        · rw [if_pos hw]
          rw [if_pos hw] at ih
          rw [ih]
        · rw [if_neg hw]
          rw [if_neg hw] at ih
          rw [← ih]
          simp

theorem jsSplit_length_two_of_mem {sep : Char} {s : Str} (h : sep ∈ s) :
    2 ≤ (jsSplit sep s).length := by
  induction s with
  | nil => simp at h
  | cons c cs ih =>
    by_cases hc : c = sep
    · rw [show jsSplit sep (c :: cs) = [] :: jsSplit sep cs from by
        simp [jsSplit, hc]]
      have := jsSplit_ne_nil sep cs
      rcases hs : jsSplit sep cs with _ | ⟨w, ws⟩
      · exact absurd hs this
      · simp
    · have hcs : sep ∈ cs := by
        rcases List.mem_cons.mp h with h | h
        · exact absurd h.symm hc
        · exact h
      rcases hs : jsSplit sep cs with _ | ⟨w, ws⟩
      · exact absurd hs (jsSplit_ne_nil sep cs)
      · rw [show jsSplit sep (c :: cs) = (c :: w) :: ws from by
          simp [jsSplit, hc, hs]]
        have := ih hcs
        rw [hs] at this
        simpa using this

theorem mem_joinSep_of_two {sep : Char} {ps : List Str}
    (h : 2 ≤ ps.length) : sep ∈ joinSep [sep] ps := by
  rcases ps with _ | ⟨p, _ | ⟨p2, l⟩⟩
  · simp at h
  · simp at h
  · rw [joinSep_cons, if_neg (by simp)]
    simp

theorem noWS_append {a b : Str} (ha : noWS a) (hb : noWS b) :
    noWS (a ++ b) := by
  intro x hx
  rcases List.mem_append.mp hx with hx | hx
  · exact ha x hx
  · exact hb x hx

theorem normalizeWord_nil (i : ℕ) : normalizeWord i [] = [] := by
  simp [normalizeWord]

theorem normalizeWord_mc (i : ℕ) {w : Str} (hw : w ≠ [])
    (h1 : begins ("mc".toList) (w.map toLowerChar) = true
      ∧ 2 < (w.map toLowerChar).length) :
    normalizeWord i w = capitalize ("mc".toList) ++ capitalize (w.drop 2) := by
  simp only [normalizeWord]
  rw [if_neg hw, if_pos h1]

theorem normalizeWord_mac (i : ℕ) {w : Str} (hw : w ≠ [])
    (h1 : ¬ (begins ("mc".toList) (w.map toLowerChar) = true
      ∧ 2 < (w.map toLowerChar).length))
    (h2 : begins ("mac".toList) (w.map toLowerChar) = true
      ∧ 3 < (w.map toLowerChar).length) :
    normalizeWord i w = capitalize ("mac".toList) ++ capitalize (w.drop 3) := by
  simp only [normalizeWord]
  rw [if_neg hw, if_neg h1, if_pos h2]

theorem normalizeWord_o (i : ℕ) {w : Str} (hw : w ≠ [])
    (h1 : ¬ (begins ("mc".toList) (w.map toLowerChar) = true
      ∧ 2 < (w.map toLowerChar).length))
    (h2 : ¬ (begins ("mac".toList) (w.map toLowerChar) = true
      ∧ 3 < (w.map toLowerChar).length))
    (h3 : begins ['o', '\''] (w.map toLowerChar) = true
      ∧ 2 < (w.map toLowerChar).length) :
    normalizeWord i w = ['O', '\''] ++ capitalize (w.drop 2) := by
  simp only [normalizeWord]
  rw [if_neg hw, if_neg h1, if_neg h2, if_pos h3]

theorem normalizeWord_particle (i : ℕ) {w : Str} (hw : w ≠ [])
    (h1 : ¬ (begins ("mc".toList) (w.map toLowerChar) = true
      ∧ 2 < (w.map toLowerChar).length))
    (h2 : ¬ (begins ("mac".toList) (w.map toLowerChar) = true
      ∧ 3 < (w.map toLowerChar).length))
    (h3 : ¬ (begins ['o', '\''] (w.map toLowerChar) = true
      ∧ 2 < (w.map toLowerChar).length))
    (h4 : 0 < i ∧ w.map toLowerChar ∈ lowercaseWords) :
    normalizeWord i w = w.map toLowerChar := by
  simp only [normalizeWord]
  rw [if_neg hw, if_neg h1, if_neg h2, if_neg h3, if_pos h4]

theorem normalizeWord_hyphen (i : ℕ) {w : Str} (hw : w ≠ [])
    (h1 : ¬ (begins ("mc".toList) (w.map toLowerChar) = true
      ∧ 2 < (w.map toLowerChar).length))
    (h2 : ¬ (begins ("mac".toList) (w.map toLowerChar) = true
      ∧ 3 < (w.map toLowerChar).length))
    (h3 : ¬ (begins ['o', '\''] (w.map toLowerChar) = true
      ∧ 2 < (w.map toLowerChar).length))
    (h4 : ¬ (0 < i ∧ w.map toLowerChar ∈ lowercaseWords))
    (h5 : '-' ∈ w) :
    normalizeWord i w = joinSep ['-'] ((jsSplit '-' w).map capitalize) := by
  simp only [normalizeWord]
  rw [if_neg hw, if_neg h1, if_neg h2, if_neg h3, if_neg h4, if_pos h5]

theorem normalizeWord_default (i : ℕ) {w : Str} (hw : w ≠ [])
    (h1 : ¬ (begins ("mc".toList) (w.map toLowerChar) = true
      ∧ 2 < (w.map toLowerChar).length))
    (h2 : ¬ (begins ("mac".toList) (w.map toLowerChar) = true
      ∧ 3 < (w.map toLowerChar).length))
    (h3 : ¬ (begins ['o', '\''] (w.map toLowerChar) = true
      ∧ 2 < (w.map toLowerChar).length))
    (h4 : ¬ (0 < i ∧ w.map toLowerChar ∈ lowercaseWords))
    (h5 : '-' ∉ w) :
    normalizeWord i w = capitalize w := by
  simp only [normalizeWord]
  rw [if_neg hw, if_neg h1, if_neg h2, if_neg h3, if_neg h4, if_neg h5]

theorem noWS_nil : noWS [] := by
  intro x hx
  simp at hx

theorem noWS_cons {c : Char} {l : Str} (hc : isSpaceChar c = false)
    (hl : noWS l) : noWS (c :: l) := by
  intro x hx
  rcases List.mem_cons.mp hx with rfl | hx
  · exact hc
  · exact hl x hx

theorem length_normalizeWord (i : ℕ) (w : Str) :
    (normalizeWord i w).length = w.length := by
  by_cases hw : w = []
  · rw [hw, normalizeWord_nil]
  · by_cases h1 : (begins ("mc".toList) (w.map toLowerChar) = true
        ∧ 2 < (w.map toLowerChar).length)
    · rw [normalizeWord_mc i hw h1,
        show capitalize ("mc".toList) = ['M', 'c'] from by decide]
      have h12 := h1.2
      rw [List.length_map] at h12
      simp only [List.length_append, length_capitalize, List.length_drop]
      simp
      omega
    · by_cases h2 : (begins ("mac".toList) (w.map toLowerChar) = true
          ∧ 3 < (w.map toLowerChar).length)
      · rw [normalizeWord_mac i hw h1 h2,
          show capitalize ("mac".toList) = ['M', 'a', 'c'] from by decide]
        have h22 := h2.2
        rw [List.length_map] at h22
        simp only [List.length_append, length_capitalize, List.length_drop]
        simp
        omega
      · by_cases h3 : (begins ['o', '\''] (w.map toLowerChar) = true
            ∧ 2 < (w.map toLowerChar).length)
        · rw [normalizeWord_o i hw h1 h2 h3]
          have h32 := h3.2
          rw [List.length_map] at h32
          simp only [List.length_append, length_capitalize, List.length_drop]
          simp
          omega
        · by_cases h4 : (0 < i ∧ w.map toLowerChar ∈ lowercaseWords)
          · rw [normalizeWord_particle i hw h1 h2 h3 h4, List.length_map]
          · by_cases h5 : '-' ∈ w
            · rw [normalizeWord_hyphen i hw h1 h2 h3 h4 h5,
                length_joinSep_map capitalize length_capitalize,
                joinSep_jsSplit]
            · rw [normalizeWord_default i hw h1 h2 h3 h4 h5,
                length_capitalize]

theorem normalizeWord_ne_nil (i : ℕ) {w : Str} (hw : w ≠ []) :
    normalizeWord i w ≠ [] := by
  intro hx
  apply hw
  have := length_normalizeWord i w
  rw [hx] at this
  exact List.length_eq_zero.mp this.symm

theorem noWS_normalizeWord (i : ℕ) {w : Str} (h : noWS w) :
    noWS (normalizeWord i w) := by
  by_cases hw : w = []
  · rw [hw, normalizeWord_nil]
    intro x hx
    simp at hx
  · by_cases h1 : (begins ("mc".toList) (w.map toLowerChar) = true
        ∧ 2 < (w.map toLowerChar).length)
    · rw [normalizeWord_mc i hw h1]
      exact noWS_append
        (show noWS (capitalize ("mc".toList)) from by
          rw [show capitalize ("mc".toList) = ['M', 'c'] from by decide]
          exact noWS_cons (by decide) (noWS_cons (by decide) noWS_nil))
        (noWS_capitalize (fun x hx => h x (List.mem_of_mem_drop hx)))
    · by_cases h2 : (begins ("mac".toList) (w.map toLowerChar) = true
          ∧ 3 < (w.map toLowerChar).length)
      · rw [normalizeWord_mac i hw h1 h2]
        exact noWS_append
          (show noWS (capitalize ("mac".toList)) from by
            rw [show capitalize ("mac".toList) = ['M', 'a', 'c'] from by
              decide]
            exact noWS_cons (by decide)
              (noWS_cons (by decide) (noWS_cons (by decide) noWS_nil)))
          (noWS_capitalize (fun x hx => h x (List.mem_of_mem_drop hx)))
      · by_cases h3 : (begins ['o', '\''] (w.map toLowerChar) = true
            ∧ 2 < (w.map toLowerChar).length)
        · rw [normalizeWord_o i hw h1 h2 h3]
          exact noWS_append
            (noWS_cons (by decide) (noWS_cons (by decide) noWS_nil))
            (noWS_capitalize (fun x hx => h x (List.mem_of_mem_drop hx)))
        · by_cases h4 : (0 < i ∧ w.map toLowerChar ∈ lowercaseWords)
          · rw [normalizeWord_particle i hw h1 h2 h3 h4]
            exact noWS_map_toLower h
          · by_cases h5 : '-' ∈ w
            · rw [normalizeWord_hyphen i hw h1 h2 h3 h4 h5]
              apply noWS_joinSep (noWS_cons (by decide) noWS_nil)
              intro p hp
              obtain ⟨q, hq, rfl⟩ := List.mem_map.mp hp
              exact noWS_capitalize
                (fun x hx => h x (jsSplit_chars '-' w q hq x hx))
            · rw [normalizeWord_default i hw h1 h2 h3 h4 h5]
              exact noWS_capitalize h

theorem normalizeWord_idem (i : ℕ) (w : Str) :
    normalizeWord i (normalizeWord i w) = normalizeWord i w := by
  by_cases hw : w = []
  · rw [hw, normalizeWord_nil, normalizeWord_nil]
  · by_cases h1 : (begins ("mc".toList) (w.map toLowerChar) = true
        ∧ 2 < (w.map toLowerChar).length)
    · rw [normalizeWord_mc i hw h1,
        show capitalize ("mc".toList) = ['M', 'c'] from by decide]
      have hX : (capitalize (w.drop 2)).map toLowerChar
          = (w.drop 2).map toLowerChar := map_toLower_capitalize _
      have hmap : (['M', 'c'] ++ capitalize (w.drop 2)).map toLowerChar
          = 'm' :: 'c' :: (w.drop 2).map toLowerChar := by
        rw [List.map_append, hX,
          show (['M', 'c'] : Str).map toLowerChar = ['m', 'c'] from by decide]
        rfl
      have hlen2 : 2 <
          ((['M', 'c'] ++ capitalize (w.drop 2)).map toLowerChar).length := by
        have h12 := h1.2
        rw [List.length_map] at h12
        rw [hmap]
        simp only [List.length_cons, List.length_map, List.length_drop]
        omega
      have hbeg : begins ("mc".toList)
          ((['M', 'c'] ++ capitalize (w.drop 2)).map toLowerChar) = true := by
        rw [hmap]
        simp [begins]
      rw [normalizeWord_mc i (by simp) ⟨hbeg, hlen2⟩,
        show capitalize ("mc".toList) = ['M', 'c'] from by decide]
      congr 1
      rw [show (['M', 'c'] ++ capitalize (w.drop 2)).drop 2
          = capitalize (w.drop 2) from rfl]
      exact capitalize_capitalize _
    · by_cases h2 : (begins ("mac".toList) (w.map toLowerChar) = true
          ∧ 3 < (w.map toLowerChar).length)
      · rw [normalizeWord_mac i hw h1 h2,
          show capitalize ("mac".toList) = ['M', 'a', 'c'] from by decide]
        have hX : (capitalize (w.drop 3)).map toLowerChar
            = (w.drop 3).map toLowerChar := map_toLower_capitalize _
        have hmap : (['M', 'a', 'c'] ++ capitalize (w.drop 3)).map toLowerChar
            = 'm' :: 'a' :: 'c' :: (w.drop 3).map toLowerChar := by
          rw [List.map_append, hX, show (['M', 'a', 'c'] : Str).map toLowerChar
              = ['m', 'a', 'c'] from by decide]
          rfl
        have hlen3 : 3 <
            ((['M', 'a', 'c'] ++ capitalize (w.drop 3)).map
              toLowerChar).length := by
          have h22 := h2.2
          rw [List.length_map] at h22
          rw [hmap]
          simp only [List.length_cons, List.length_map, List.length_drop]
          omega
        have hbeg : begins ("mac".toList)
            ((['M', 'a', 'c'] ++ capitalize (w.drop 3)).map toLowerChar)
              = true := by
          rw [hmap]
          simp [begins]
        have hnb : ¬ (begins ("mc".toList)
            ((['M', 'a', 'c'] ++ capitalize (w.drop 3)).map toLowerChar) = true
            ∧ 2 < ((['M', 'a', 'c'] ++ capitalize (w.drop 3)).map
              toLowerChar).length) := by
          intro hx
          have hb := hx.1
          rw [hmap] at hb
          simp [begins] at hb
        rw [normalizeWord_mac i (by simp) hnb ⟨hbeg, hlen3⟩,
          show capitalize ("mac".toList) = ['M', 'a', 'c'] from by decide]
        congr 1
        rw [show (['M', 'a', 'c'] ++ capitalize (w.drop 3)).drop 3
            = capitalize (w.drop 3) from rfl]
        exact capitalize_capitalize _
      · by_cases h3 : (begins ['o', '\''] (w.map toLowerChar) = true
            ∧ 2 < (w.map toLowerChar).length)
        · rw [normalizeWord_o i hw h1 h2 h3]
          have hX : (capitalize (w.drop 2)).map toLowerChar
              = (w.drop 2).map toLowerChar := map_toLower_capitalize _
          have hmap : (['O', '\''] ++ capitalize (w.drop 2)).map toLowerChar
              = 'o' :: '\'' :: (w.drop 2).map toLowerChar := by
            rw [List.map_append, hX, show (['O', '\''] : Str).map toLowerChar
                = ['o', '\''] from by decide]
            rfl
          have hlen2 : 2 <
              ((['O', '\''] ++ capitalize (w.drop 2)).map
                toLowerChar).length := by
            have h32 := h3.2
            rw [List.length_map] at h32
            rw [hmap]
            simp only [List.length_cons, List.length_map, List.length_drop]
            omega
          have hbeg : begins ['o', '\'']
              ((['O', '\''] ++ capitalize (w.drop 2)).map toLowerChar)
                = true := by
            rw [hmap]
            simp [begins]
          have hnb1 : ¬ (begins ("mc".toList)
              ((['O', '\''] ++ capitalize (w.drop 2)).map toLowerChar) = true
              ∧ 2 < ((['O', '\''] ++ capitalize (w.drop 2)).map
                toLowerChar).length) := by
            intro hx
            have hb := hx.1
            rw [hmap] at hb
            simp [begins] at hb
          have hnb2 : ¬ (begins ("mac".toList)
              ((['O', '\''] ++ capitalize (w.drop 2)).map toLowerChar) = true
              ∧ 3 < ((['O', '\''] ++ capitalize (w.drop 2)).map
                toLowerChar).length) := by
            intro hx
            have hb := hx.1
            rw [hmap] at hb
            simp [begins] at hb
          rw [normalizeWord_o i (by simp) hnb1 hnb2 ⟨hbeg, hlen2⟩]
          congr 1
          rw [show (['O', '\''] ++ capitalize (w.drop 2)).drop 2
              = capitalize (w.drop 2) from rfl]
          exact capitalize_capitalize _
        · by_cases h4 : (0 < i ∧ w.map toLowerChar ∈ lowercaseWords)
          · rw [normalizeWord_particle i hw h1 h2 h3 h4]
            have hmap : (w.map toLowerChar).map toLowerChar
                = w.map toLowerChar := map_toLower_toLower w
            have hw' : w.map toLowerChar ≠ [] := by
              simp [hw]
            rw [normalizeWord_particle i hw'
              (by rw [hmap]; exact h1) (by rw [hmap]; exact h2)
              (by rw [hmap]; exact h3) (by rw [hmap]; exact h4)]
            exact hmap
          · by_cases h5 : '-' ∈ w
            · rw [normalizeWord_hyphen i hw h1 h2 h3 h4 h5]
              have hps2 : 2 ≤ ((jsSplit '-' w).map capitalize).length := by
                rw [List.length_map]
                exact jsSplit_length_two_of_mem h5
              have hdash : '-' ∈ joinSep ['-']
                  ((jsSplit '-' w).map capitalize) :=
                mem_joinSep_of_two hps2
              have hw' : joinSep ['-'] ((jsSplit '-' w).map capitalize)
                  ≠ [] := List.ne_nil_of_mem hdash
              have hlr : (joinSep ['-']
                  ((jsSplit '-' w).map capitalize)).map toLowerChar
                    = w.map toLowerChar := by
                rw [map_joinSep, List.map_map,
                  show (['-'] : Str).map toLowerChar = ['-'] from by decide,
                  show (jsSplit '-' w).map
                      (List.map toLowerChar ∘ capitalize)
                    = (jsSplit '-' w).map (List.map toLowerChar) from
                    List.map_congr_left
                      (fun p _ => map_toLower_capitalize p)]
                conv_rhs => rw [← joinSep_jsSplit '-' w]
                rw [map_joinSep,
                  show (['-'] : Str).map toLowerChar = ['-'] from by decide]
              rw [normalizeWord_hyphen i hw'
                (by rw [hlr]; exact h1) (by rw [hlr]; exact h2)
                (by rw [hlr]; exact h3) (by rw [hlr]; exact h4) hdash]
              rw [jsSplit_joinSep '-' ((jsSplit '-' w).map capitalize)
                (by simp [jsSplit_ne_nil '-' w])
                (by
                  intro p hp hx
                  obtain ⟨q, hq, rfl⟩ := List.mem_map.mp hp
                  exact jsSplit_pieces_not_mem '-' w q hq
                    (dash_mem_capitalize.mp hx))]
              rw [List.map_map]
              congr 1
              exact List.map_congr_left (fun p _ => capitalize_capitalize p)
            · rw [normalizeWord_default i hw h1 h2 h3 h4 h5]
              have hlr : (capitalize w).map toLowerChar = w.map toLowerChar :=
                map_toLower_capitalize w
              rw [normalizeWord_default i (capitalize_ne_nil hw)
                (by rw [hlr]; exact h1) (by rw [hlr]; exact h2)
                (by rw [hlr]; exact h3) (by rw [hlr]; exact h4)
                (fun hx => h5 (dash_mem_capitalize.mp hx))]
              exact capitalize_capitalize w

theorem mapIdxFrom_eq_nil_iff (f : ℕ → Str → Str) (i : ℕ) (l : List Str) :
    mapIdxFrom f i l = [] ↔ l = [] := by
  cases l <;> simp [mapIdxFrom]

theorem mapIdxFrom_idem (f : ℕ → Str → Str)
    (hf : ∀ j u, f j (f j u) = f j u) :
    ∀ (i : ℕ) (l : List Str),
      mapIdxFrom f i (mapIdxFrom f i l) = mapIdxFrom f i l := by
  intro i l
  induction l generalizing i with
  | nil => rfl
  | cons u t ih =>
    simp only [mapIdxFrom]
    rw [hf i u, ih (i + 1)]

theorem mapIdxFrom_normalizeWord_good (i : ℕ) (l : List Str)
    (h : ∀ u ∈ l, u ≠ [] ∧ noWS u) :
    ∀ v ∈ mapIdxFrom normalizeWord i l, v ≠ [] ∧ noWS v := by
  induction l generalizing i with
  | nil => intro v hv; simp [mapIdxFrom] at hv
  | cons u t ih =>
    intro v hv
    rcases List.mem_cons.mp hv with hv | hv
    · subst hv
      obtain ⟨hne, hnw⟩ := h u (by simp)
      exact ⟨normalizeWord_ne_nil i hne, noWS_normalizeWord i hnw⟩
    · exact ih (i + 1) (fun x hx => h x (by simp [hx])) v hv

end NameNormalizer

/-- The ASCII-model normalizer is idempotent on every input. -/
theorem name_normalize_idem (x : Option Str) :
    NameNormalizer.normalize (NameNormalizer.normalize x)
      = NameNormalizer.normalize x := by
  cases x with
  | none => rfl
  | some s =>
    rw [name_normalize_eq_words s]
    by_cases hws : wordsOf s = []
    · rw [if_pos hws]
      rfl
    · rw [if_neg hws]
      have hgood := NameNormalizer.mapIdxFrom_normalizeWord_good 0 (wordsOf s)
        (fun u hu => wordsOf_mem hu)
      have hne : NameNormalizer.mapIdxFrom NameNormalizer.normalizeWord 0
          (wordsOf s) ≠ [] := by
        rw [Ne, NameNormalizer.mapIdxFrom_eq_nil_iff]
        exact hws
      rw [name_normalize_eq_words]
      rw [wordsOf_joinSep _ hgood, if_neg hne,
        NameNormalizer.mapIdxFrom_idem _ NameNormalizer.normalizeWord_idem]

/-! ## Full case mapping

JS `toUpperCase`/`toLowerCase` implement Unicode full case conversion, not
the ASCII fragment: in particular `'ß'.toUpperCase() === "SS"` (a
multi-character expansion) and the Latin-1 letters map 1:1 (`'é'` ↔ `'É'`).
The per-character maps below return strings and cover the repertoire of
this development — ASCII, the Latin-1 letters with `ÿ/Ÿ`, and the `ß`
expansion; characters outside it are left unchanged. `toLowerChar` /
`toUpperChar` above are exactly the ASCII fragment of these maps. -/

/-- Latin-1 letter case pairs (lower, upper), including `ÿ/Ÿ`. -/
def latinPairs : List (Char × Char) :=
  [('à', 'À'), ('á', 'Á'), ('â', 'Â'), ('ã', 'Ã'), ('ä', 'Ä'), ('å', 'Å'),
   ('æ', 'Æ'), ('ç', 'Ç'), ('è', 'È'), ('é', 'É'), ('ê', 'Ê'), ('ë', 'Ë'),
   ('ì', 'Ì'), ('í', 'Í'), ('î', 'Î'), ('ï', 'Ï'), ('ð', 'Ð'), ('ñ', 'Ñ'),
   ('ò', 'Ò'), ('ó', 'Ó'), ('ô', 'Ô'), ('õ', 'Õ'), ('ö', 'Ö'), ('ø', 'Ø'),
   ('ù', 'Ù'), ('ú', 'Ú'), ('û', 'Û'), ('ü', 'Ü'), ('ý', 'Ý'), ('þ', 'Þ'),
   ('ÿ', 'Ÿ')]

/-- JS `toUpperCase` on one character, as a string: the `ß → SS`
expansion, the Latin-1 1:1 pairs, then the ASCII map. -/
def toUpperFull (c : Char) : Str :=
  if c = 'ß' then ['S', 'S']
  else
    match latinPairs.find? (fun p => p.1 = c) with
    | some p => [p.2]
    | none => [toUpperChar c]

/-- JS `toLowerCase` on one character, as a string (no expansion arises on
this repertoire; `ß` is already lower case). -/
def toLowerFull (c : Char) : Str :=
  match latinPairs.find? (fun p => p.2 = c) with
  | some p => [p.1]
  | none => [toLowerChar c]

/-- JS `toLowerCase` on a whole string. -/
def strLower (s : Str) : Str := (s.map toLowerFull).flatten

/-- A character of the ASCII range, where the full and ASCII case maps
agree. -/
def plainChar (c : Char) : Bool := decide (c.toNat < 128)

theorem find_latin_fst_none_of_plain (c : Char) (h : plainChar c = true) :
    latinPairs.find? (fun p => p.1 = c) = none := by
  rw [List.find?_eq_none]
  intro p hp hc
  have h1 := List.all_eq_true.mp
    (show latinPairs.all (fun p => !plainChar p.1 && !plainChar p.2) = true
      from by decide) p hp
  rw [of_decide_eq_true hc] at h1
  simp [h] at h1

theorem find_latin_snd_none_of_plain (c : Char) (h : plainChar c = true) :
    latinPairs.find? (fun p => p.2 = c) = none := by
  rw [List.find?_eq_none]
  intro p hp hc
  have h1 := List.all_eq_true.mp
    (show latinPairs.all (fun p => !plainChar p.1 && !plainChar p.2) = true
      from by decide) p hp
  rw [of_decide_eq_true hc] at h1
  simp [h] at h1

theorem toUpperFull_plain {c : Char} (h : plainChar c = true) :
    toUpperFull c = [toUpperChar c] := by
  unfold toUpperFull
  rw [if_neg (fun he => by rw [he] at h; exact absurd h (by decide)),
    find_latin_fst_none_of_plain c h]

theorem toLowerFull_plain {c : Char} (h : plainChar c = true) :
    toLowerFull c = [toLowerChar c] := by
  unfold toLowerFull
  rw [find_latin_snd_none_of_plain c h]

theorem strLower_plain {s : Str} (h : ∀ c ∈ s, plainChar c = true) :
    strLower s = s.map toLowerChar := by
  induction s with
  | nil => rfl
  | cons c cs ih =>
    simp only [strLower, List.map_cons, List.flatten_cons]
    rw [toLowerFull_plain (h c (by simp))]
    have ih2 := ih (fun d hd => h d (by simp [hd]))
    unfold strLower at ih2
    rw [ih2]
    rfl

theorem toLowerChar_plain {c : Char} (h : plainChar c = true) :
    plainChar (toLowerChar c) = true := by
  unfold toLowerChar
  cases hf : letterPairs.find? (fun p => p.1 = c) with
  | none => exact h
  | some p =>
    have hp := List.mem_of_find?_eq_some hf
    have h1 := List.all_eq_true.mp
      (show letterPairs.all (fun p => plainChar p.1 && plainChar p.2) = true
        from by decide) p hp
    simp only [Bool.and_eq_true] at h1
    exact h1.2

theorem toUpperChar_plain {c : Char} (h : plainChar c = true) :
    plainChar (toUpperChar c) = true := by
  unfold toUpperChar
  cases hf : letterPairs.find? (fun p => p.2 = c) with
  | none => exact h
  | some p =>
    have hp := List.mem_of_find?_eq_some hf
    have h1 := List.all_eq_true.mp
      (show letterPairs.all (fun p => plainChar p.1 && plainChar p.2) = true
        from by decide) p hp
    simp only [Bool.and_eq_true] at h1
    exact h1.1

namespace NameNormalizerU

/-- `capitalize` with the full case maps: `charAt(0).toUpperCase()` plus
`slice(1).toLowerCase()`. -/
def capitalize : Str → Str
  | [] => []
  | c :: cs => toUpperFull c ++ strLower cs

/-- The per-word step of `NameNormalizer.normalize`, with the full case
maps. -/
def normalizeWord (index : ℕ) (word : Str) : Str :=
  if word = [] then word
  else
    let lowerWord := strLower word
    if begins ("mc".toList) lowerWord ∧ 2 < lowerWord.length then
      capitalize ("mc".toList) ++ capitalize (word.drop 2)
    else if begins ("mac".toList) lowerWord ∧ 3 < lowerWord.length then
      capitalize ("mac".toList) ++ capitalize (word.drop 3)
    else if begins ['o', '\''] lowerWord ∧ 2 < lowerWord.length then
      ['O', '\''] ++ capitalize (word.drop 2)
    else if 0 < index ∧ lowerWord ∈ NameNormalizer.lowercaseWords then
      lowerWord
    else if '-' ∈ word then
      joinSep ['-'] ((jsSplit '-' word).map capitalize)
    else capitalize word

/-- `NameNormalizer.normalize` with the full case maps. -/
def normalize (name : Option Str) : Option Str :=
  match name with
  | none => none
  | some s =>
    if s = [] then none
    else
      let normalized := collapseWS (jsTrim s)
      if normalized = [] then none
      else some (joinSep [' ']
        (NameNormalizer.mapIdxFrom normalizeWord 0 (jsSplit ' ' normalized)))

end NameNormalizerU

theorem capitalizeU_plain_eq {w : Str} (h : ∀ c ∈ w, plainChar c = true) :
    NameNormalizerU.capitalize w = NameNormalizer.capitalize w := by
  cases w with
  | nil => rfl
  | cons c cs =>
    simp only [NameNormalizerU.capitalize, NameNormalizer.capitalize]
    rw [toUpperFull_plain (h c (by simp)),
      strLower_plain (fun d hd => h d (by simp [hd]))]
    rfl

theorem normalizeWordU_plain_eq (i : ℕ) {w : Str}
    (h : ∀ c ∈ w, plainChar c = true) :
    NameNormalizerU.normalizeWord i w = NameNormalizer.normalizeWord i w := by
  have hdrop : ∀ n : ℕ, ∀ c ∈ w.drop n, plainChar c = true :=
    fun n c hc => h c (List.mem_of_mem_drop hc)
  unfold NameNormalizerU.normalizeWord NameNormalizer.normalizeWord
  simp only [strLower_plain h]
  split_ifs with h0 h1 h2 h3 h4 h5
  · rfl
  · rw [capitalizeU_plain_eq
      (show ∀ c ∈ ("mc".toList), plainChar c = true from by decide),
      capitalizeU_plain_eq (hdrop 2)]
  · rw [capitalizeU_plain_eq
      (show ∀ c ∈ ("mac".toList), plainChar c = true from by decide),
      capitalizeU_plain_eq (hdrop 3)]
  · rw [capitalizeU_plain_eq (hdrop 2)]
  · rfl
  · congr 1
    apply List.map_congr_left
    intro p hp
    exact capitalizeU_plain_eq (fun c hc => h c (NameNormalizer.jsSplit_chars '-' w p hp c hc))
  · exact capitalizeU_plain_eq h

theorem mapIdxFromU_plain_eq (ws : List Str) (i : ℕ)
    (h : ∀ w ∈ ws, ∀ c ∈ w, plainChar c = true) :
    NameNormalizer.mapIdxFrom NameNormalizerU.normalizeWord i ws
      = NameNormalizer.mapIdxFrom NameNormalizer.normalizeWord i ws := by
  induction ws generalizing i with
  | nil => rfl
  | cons w ws ih =>
    simp only [NameNormalizer.mapIdxFrom]
    rw [normalizeWordU_plain_eq i (h w (by simp)),
      ih (i + 1) (fun u hu c hc => h u (by simp [hu]) c hc)]

theorem mem_jsTrim {c : Char} {s : Str} (h : c ∈ jsTrim s) : c ∈ s := by
  unfold jsTrim rtrimWS ltrimWS at h
  rw [List.mem_reverse] at h
  have h2 := (List.dropWhile_sublist _).subset h
  rw [List.mem_reverse] at h2
  exact (List.dropWhile_sublist _).subset h2

theorem mem_collapseWSAux (b : Bool) (s : Str) :
    ∀ c ∈ collapseWSAux b s, c ∈ s ∨ c = ' ' := by
  induction s generalizing b with
  | nil =>
    intro c hc
    simp [collapseWSAux] at hc
  | cons d ds ih =>
    intro c hc
    unfold collapseWSAux at hc
    by_cases hd : isSpaceChar d = true
    · rw [if_pos hd] at hc
      by_cases hb : b = true
      · rw [if_pos hb] at hc
        rcases ih true c hc with h1 | h2
        · exact Or.inl (List.mem_cons_of_mem _ h1)
        · exact Or.inr h2
      · rw [if_neg hb] at hc
        rcases List.mem_cons.mp hc with rfl | hc2
        · exact Or.inr rfl
        · rcases ih true c hc2 with h1 | h2
          · exact Or.inl (List.mem_cons_of_mem _ h1)
          · exact Or.inr h2
    · rw [if_neg hd] at hc
      rcases List.mem_cons.mp hc with rfl | hc2
      · exact Or.inl (List.mem_cons_self _ _)
      · rcases ih false c hc2 with h1 | h2
        · exact Or.inl (List.mem_cons_of_mem _ h1)
        · exact Or.inr h2

theorem mem_joinSep {sep : Str} {l : List Str} {c : Char}
    (hc : c ∈ joinSep sep l) : c ∈ sep ∨ ∃ p ∈ l, c ∈ p := by
  induction l with
  | nil => simp [joinSep] at hc
  | cons w ws ih =>
    cases ws with
    | nil =>
      right
      exact ⟨w, by simp, by simpa [joinSep] using hc⟩
    | cons w2 ws2 =>
      rw [show joinSep sep (w :: w2 :: ws2)
          = w ++ sep ++ joinSep sep (w2 :: ws2) from rfl] at hc
      rcases List.mem_append.mp hc with hA | hB
      · rcases List.mem_append.mp hA with h1 | h2
        · right
          exact ⟨w, by simp, h1⟩
        · left
          exact h2
      · rcases ih hB with h1 | ⟨p, hp, hcp⟩
        · left
          exact h1
        · right
          exact ⟨p, by simp [hp], hcp⟩

theorem mem_mapIdxFrom {f : ℕ → Str → Str} {i : ℕ} {ws : List Str} {p : Str}
    (hp : p ∈ NameNormalizer.mapIdxFrom f i ws) :
    ∃ j w, w ∈ ws ∧ p = f j w := by
  induction ws generalizing i with
  | nil => simp [NameNormalizer.mapIdxFrom] at hp
  | cons w ws ih =>
    simp only [NameNormalizer.mapIdxFrom, List.mem_cons] at hp
    rcases hp with rfl | hp
    · exact ⟨i, w, by simp, rfl⟩
    · obtain ⟨j, u, hu, he⟩ := ih hp
      exact ⟨j, u, by simp [hu], he⟩

theorem plain_capitalize {w : Str} (h : ∀ c ∈ w, plainChar c = true) :
    ∀ c ∈ NameNormalizer.capitalize w, plainChar c = true := by
  cases w with
  | nil => simp [NameNormalizer.capitalize]
  | cons d ds =>
    intro c hc
    simp only [NameNormalizer.capitalize, List.mem_cons, List.mem_map] at hc
    rcases hc with rfl | ⟨e, he, rfl⟩
    · exact toUpperChar_plain (h d (by simp))
    · exact toLowerChar_plain (h e (by simp [he]))

theorem plain_normalizeWord (i : ℕ) {w : Str}
    (h : ∀ c ∈ w, plainChar c = true) :
    ∀ c ∈ NameNormalizer.normalizeWord i w, plainChar c = true := by
  intro c hc
  unfold NameNormalizer.normalizeWord at hc
  by_cases h0 : w = []
  · rw [if_pos h0, h0] at hc
    simp at hc
  · rw [if_neg h0] at hc
    dsimp only at hc
    split_ifs at hc with h1 h2 h3 h4 h5
    · rcases List.mem_append.mp hc with hA | hB
      · exact plain_capitalize
          (show ∀ d ∈ ("mc".toList), plainChar d = true from by decide) c hA
      · exact plain_capitalize
          (fun d hd => h d (List.mem_of_mem_drop hd)) c hB
    · rcases List.mem_append.mp hc with hA | hB
      · exact plain_capitalize
          (show ∀ d ∈ ("mac".toList), plainChar d = true from by decide) c hA
      · exact plain_capitalize
          (fun d hd => h d (List.mem_of_mem_drop hd)) c hB
    · rcases List.mem_append.mp hc with hA | hB
      · rcases List.mem_cons.mp hA with rfl | hA2
        · decide
        · rcases List.mem_cons.mp hA2 with rfl | hA3
          · decide
          · simp at hA3
      · exact plain_capitalize
          (fun d hd => h d (List.mem_of_mem_drop hd)) c hB
    · rcases List.mem_map.mp hc with ⟨d, hd, rfl⟩
      exact toLowerChar_plain (h d hd)
    · rcases mem_joinSep hc with hsep | ⟨p, hp, hcp⟩
      · rcases List.mem_cons.mp hsep with rfl | hx
        · decide
        · simp at hx
      · rcases List.mem_map.mp hp with ⟨q, hq, rfl⟩
        exact plain_capitalize
          (fun d hd => h d (NameNormalizer.jsSplit_chars '-' w q hq d hd)) c hcp
    · exact plain_capitalize h c hc

theorem plain_name_normalize {s t : Str} (h : ∀ c ∈ s, plainChar c = true)
    (ht : NameNormalizer.normalize (some s) = some t) :
    ∀ c ∈ t, plainChar c = true := by
  simp only [NameNormalizer.normalize] at ht
  by_cases h0 : s = []
  · rw [if_pos h0] at ht
    cases ht
  · rw [if_neg h0] at ht
    by_cases h1 : collapseWS (jsTrim s) = []
    · rw [if_pos h1] at ht
      cases ht
    · rw [if_neg h1] at ht
      injection ht with ht
      subst ht
      intro c hc
      rcases mem_joinSep hc with hsep | ⟨p, hp, hcp⟩
      · rcases List.mem_cons.mp hsep with rfl | hx
        · decide
        · simp at hx
      · obtain ⟨j, w, hw, rfl⟩ := mem_mapIdxFrom hp
        refine plain_normalizeWord j (fun d hd => ?_) c hcp
        rcases mem_collapseWSAux false (jsTrim s) d
            (NameNormalizer.jsSplit_chars ' ' _ w hw d hd) with hm | he
        · exact h d (mem_jsTrim hm)
        · rw [he]
          decide

theorem normalizeU_plain_eq (s : Str) (h : ∀ c ∈ s, plainChar c = true) :
    NameNormalizerU.normalize (some s) = NameNormalizer.normalize (some s)
    := by
  simp only [NameNormalizerU.normalize, NameNormalizer.normalize]
  by_cases h0 : s = []
  · rw [if_pos h0, if_pos h0]
  · rw [if_neg h0, if_neg h0]
    by_cases h1 : collapseWS (jsTrim s) = []
    · rw [if_pos h1, if_pos h1]
    · rw [if_neg h1, if_neg h1]
      have hplain : ∀ w ∈ jsSplit ' ' (collapseWS (jsTrim s)),
          ∀ d ∈ w, plainChar d = true := by
        intro w hw d hd
        rcases mem_collapseWSAux false (jsTrim s) d
            (NameNormalizer.jsSplit_chars ' ' _ w hw d hd) with hm | he
        · exact h d (mem_jsTrim hm)
        · rw [he]
          decide
      rw [mapIdxFromU_plain_eq _ 0 hplain]

/-- C4 counterexample. With the full JS case conversion — which uppercases
`ß` to the two-character `SS` — the normalizer is not idempotent: one run
turns `ß` into `SS`, a second run turns `SS` into `Ss`. -/
theorem C4_name_normalizer_counterexample :
    NameNormalizerU.normalize (some ['ß']) = some ("SS".toList) ∧
    NameNormalizerU.normalize (NameNormalizerU.normalize (some ['ß']))
      = some ("Ss".toList) ∧
    NameNormalizerU.normalize (NameNormalizerU.normalize (some ['ß']))
      ≠ NameNormalizerU.normalize (some ['ß']) := by
  refine ⟨by decide, by decide, by decide⟩

/-- C4 (amended): `NameNormalizer.normalize`, with the full JS case
conversion, is idempotent on every input whose characters are ASCII —
where the full maps have no multi-character expansion — and null is a
fixed point; the three concrete examples from the spec hold, with the
particle `van` kept lowercase away from the first word. (It is not
idempotent on all inputs: `ß` uppercases to `SS`.) -/
theorem C4_name_normalizer_idempotent :
    (∀ s : Str, (∀ c ∈ s, plainChar c = true) →
      NameNormalizerU.normalize (NameNormalizerU.normalize (some s))
        = NameNormalizerU.normalize (some s)) ∧
    NameNormalizerU.normalize (NameNormalizerU.normalize none)
      = NameNormalizerU.normalize none ∧
    NameNormalizerU.normalize (some ("mcdonald".toList))
      = some ("McDonald".toList) ∧
    NameNormalizerU.normalize (some (['o', '\''] ++ "brien".toList))
      = some (['O', '\''] ++ "Brien".toList) ∧
    NameNormalizerU.normalize (some ("jean-claude van damme".toList))
      = some ("Jean-Claude van Damme".toList) := by
  refine ⟨fun s h => ?_, rfl, by decide, by decide, by decide⟩
  rw [normalizeU_plain_eq s h]
  rcases hn : NameNormalizer.normalize (some s) with _ | t
  · rfl
  · have hplain := plain_name_normalize h hn
    rw [normalizeU_plain_eq t hplain, ← hn, name_normalize_idem]

theorem C4_name_normalizer_idempotent_witness :
    (∀ c ∈ ("mcdonald".toList), plainChar c = true) ∧
    NameNormalizerU.normalize
        (NameNormalizerU.normalize (some ("mcdonald".toList)))
      = NameNormalizerU.normalize (some ("mcdonald".toList)) :=
  ⟨by decide,
   C4_name_normalizer_idempotent.1 ("mcdonald".toList) (by decide)⟩

/-! ## Data model

From the Zod schemas in `validator.ts`: `ExtractionResult` with contacts,
emergency contacts and locations. Machine floats (the `confidence` score)
are modelled as rationals; the engine never computes with them (the only
use is a log statement), it just carries or drops them. -/

structure Contact where
  name : Str
  role : Option Str
  department : Option Str
  phone : Option Str
  email : Option Str
  notes : Option Str
  confidence : Option ℚ
deriving DecidableEq

instance : Inhabited Contact :=
  ⟨⟨[], none, none, none, none, none, none⟩⟩

structure ProductionInfo where
  title : Option Str
  production_company : Option Str
  shoot_date : Option Str
deriving DecidableEq

structure EmergencyContact where
  type : Str
  name : Option Str
  phone : Option Str
deriving DecidableEq

structure Location where
  name : Option Str
  address : Option Str
  phone : Option Str
deriving DecidableEq

structure ExtractionResult where
  production_info : ProductionInfo
  contacts : List Contact
  emergency_contacts : List EmergencyContact
  locations : List Location
deriving DecidableEq

/-- JS truthiness of a nullable string: null and `""` are falsy. -/
def truthy (x : Option Str) : Bool :=
  match x with
  | none => false
  | some s => !s.isEmpty

/-- JS `a || b` on strings. -/
def jsOrStr (a b : Str) : Str := if a = [] then b else a

/-- JS `a || b` on nullable strings. -/
def jsOrOpt (a b : Option Str) : Option Str := if truthy a then a else b

/-! ## Role normalizer

From `RoleNormalizer` (role.normalizer.ts): exact lookup in the role table,
then substring lookup in table order, then Title Case; department inference
scans the keyword table in order. -/

namespace RoleNormalizer

/-- `ROLE_MAPPINGS`, in source (insertion) order — the partial-match loop
iterates it in this order. -/
def ROLE_MAPPINGS : List (Str × Str) :=
  [("dp".toList, "Director of Photography".toList),
   ("dop".toList, "Director of Photography".toList),
   ("1st ac".toList, "1st Assistant Camera".toList),
   ("2nd ac".toList, "2nd Assistant Camera".toList),
   ("a/c".toList, "Assistant Camera".toList),
   ("ac".toList, "Assistant Camera".toList),
   ("cam op".toList, "Camera Operator".toList),
   ("steadicam".toList, "Steadicam Operator".toList),
   ("digi tech".toList, "Digital Technician".toList),
   ("dit".toList, "Digital Imaging Technician".toList),
   ("gaffer".toList, "Gaffer".toList),
   ("key grip".toList, "Key Grip".toList),
   ("best boy".toList, "Best Boy".toList),
   ("best boy electric".toList, "Best Boy Electric".toList),
   ("best boy grip".toList, "Best Boy Grip".toList),
   ("grip".toList, "Grip".toList),
   ("electric".toList, "Electric".toList),
   ("ad".toList, "Assistant Director".toList),
   ("1st ad".toList, "1st Assistant Director".toList),
   ("2nd ad".toList, "2nd Assistant Director".toList),
   ("pa".toList, "Production Assistant".toList),
   ("pm".toList, "Production Manager".toList),
   ("upm".toList, "Unit Production Manager".toList),
   ("lm".toList, "Location Manager".toList),
   ("loc manager".toList, "Location Manager".toList),
   ("prod designer".toList, "Production Designer".toList),
   ("art director".toList, "Art Director".toList),
   ("set dresser".toList, "Set Dresser".toList),
   ("prop master".toList, "Property Master".toList),
   ("prop stylist".toList, "Prop Stylist".toList),
   ("props".toList, "Props".toList),
   ("prop asst".toList, "Prop Assistant".toList),
   ("hmu".toList, "Hair & Makeup".toList),
   ("hmua".toList, "Hair & Makeup Artist".toList),
   ("mua".toList, "Makeup Artist".toList),
   ("hair/makeup".toList, "Hair & Makeup".toList),
   ("groomer".toList, "Groomer".toList),
   ("wardrobe".toList, "Wardrobe Stylist".toList),
   ("wardrobe asst".toList, "Wardrobe Assistant".toList),
   ("stylist".toList, "Stylist".toList),
   ("sound".toList, "Sound Mixer".toList),
   ("audio".toList, "Audio".toList),
   ("boom op".toList, "Boom Operator".toList),
   ("sound mixer".toList, "Sound Mixer".toList),
   ("photo".toList, "Photographer".toList),
   ("photographer".toList, "Photographer".toList),
   ("photo asst".toList, "Photo Assistant".toList),
   ("photo assistant".toList, "Photo Assistant".toList),
   ("digital tech".toList, "Digital Technician".toList),
   ("bts".toList, "Behind The Scenes".toList),
   ("craft services".toList, "Craft Services".toList),
   ("crafty".toList, "Craft Services".toList),
   ("medic".toList, "Set Medic".toList),
   ("covid officer".toList, "COVID Compliance Officer".toList)]

/-- `DEPARTMENT_KEYWORDS`, in source (insertion) order. -/
def DEPARTMENT_KEYWORDS : List (Str × List Str) :=
  [("Camera".toList,
    ["camera".toList, "dp".toList, "dop".toList, "ac".toList,
     "steadicam".toList, "dit".toList, "digi".toList, "photo".toList,
     "photographer".toList]),
   ("Grip & Electric".toList,
    ["grip".toList, "gaffer".toList, "electric".toList, "best boy".toList,
     "lighting".toList]),
   ("Production".toList,
    ["producer".toList, "production".toList, "ad".toList,
     "assistant director".toList, "coordinator".toList, "pm".toList,
     "upm".toList]),
   ("Art".toList,
    ["art".toList, "prop".toList, "set".toList, "scenic".toList,
     "designer".toList, "decorator".toList]),
   ("Hair & Makeup".toList,
    ["hair".toList, "makeup".toList, "hmu".toList, "mua".toList,
     "groomer".toList, "beauty".toList]),
   ("Wardrobe".toList,
    ["wardrobe".toList, "costume".toList, "stylist".toList]),
   ("Sound".toList,
    ["sound".toList, "audio".toList, "boom".toList, "mixer".toList]),
   ("Locations".toList, ["location".toList, "loc manager".toList]),
   ("Transport".toList,
    ["driver".toList, "transport".toList, "picture car".toList]),
   ("Talent".toList,
    ["talent".toList, "actor".toList, "actress".toList, "model".toList,
     "cast".toList]),
   ("Creative".toList,
    ["director".toList, "creative".toList, "writer".toList]),
   ("Video".toList, ["video".toList, "editor".toList, "post".toList])]

/-- `toTitleCase` from the source: per space-separated word, first character
upper case, remainder lower case (the same `capitalize` as the name
normalizer uses). -/
def toTitleCase (str : Str) : Str :=
  joinSep [' '] ((jsSplit ' ' str).map NameNormalizer.capitalize)

/-- `RoleNormalizer.normalizeRole` from the source. -/
def normalizeRole (role : Option Str) : Option Str :=
  match role with
  | none => none
  | some r =>
    let trimmed := jsTrim r
    if trimmed = [] then none
    else
      let lowerRole := trimmed.map toLowerChar
      -- exact mapping hit (`ROLE_MAPPINGS[lowerRole]`)
      match ROLE_MAPPINGS.find? (fun m => m.1 = lowerRole) with
      | some m => some m.2
      | none =>
        -- partial match, first table entry whose key occurs in the role
        match ROLE_MAPPINGS.find?
            (fun m => lowerRole = m.1 || containsSeq m.1 lowerRole) with
        | some m => some m.2
        | none => some (toTitleCase trimmed)

/-- `RoleNormalizer.inferDepartment` keyword scan over the role. -/
def inferFromRole (role : Option Str) : Option Str :=
  match role with
  | none => none
  | some r =>
    if r = [] then none         -- `if (!role) return null` also catches ""
    else
      let lowerRole := r.map toLowerChar
      match DEPARTMENT_KEYWORDS.find?
          (fun dk => dk.2.any (fun k => containsSeq k lowerRole)) with
      | some dk => some dk.1
      | none => none

/-- `RoleNormalizer.inferDepartment` from the source: keep a present,
non-blank department; otherwise scan the keyword table. -/
def inferDepartment (role : Option Str) (existingDepartment : Option Str) :
    Option Str :=
  match existingDepartment with
  | some d => if d ≠ [] ∧ jsTrim d ≠ [] then some d else inferFromRole role
  | none => inferFromRole role

end RoleNormalizer

example : RoleNormalizer.normalizeRole (some ("dp".toList))
    = some ("Director of Photography".toList) := by decide
example : RoleNormalizer.normalizeRole
    (some ("Director of Photography".toList))
    = some ("Photographer".toList) := by decide
example : RoleNormalizer.inferDepartment
    (some ("Director of Photography".toList)) none
    = some ("Camera".toList) := by decide

/-! ## Deduplicator

From `Deduplicator` (deduplicator.ts): key = normalized name plus phone or
email; contacts merged in list order into an insertion-ordered map (the
JS `Map` keeps the first-seen position of a key when its value is updated);
the merge keeps the first truthy value per field and concatenates notes. -/

namespace Deduplicator

/-- `generateKey` from the source. -/
def generateKey (contact : Contact) : Str :=
  let normalizedName := collapseWS (jsTrim (contact.name.map toLowerChar))
  let normalizedPhone :=
    match contact.phone with
    | some p => p.filter (fun c => c.isDigit)
    | none => []
  let normalizedEmail :=
    match contact.email with
    | some e => jsTrim (e.map toLowerChar)
    | none => []
  if 7 ≤ normalizedPhone.length then normalizedName ++ '|' :: normalizedPhone
  else if normalizedEmail ≠ [] then normalizedName ++ '|' :: normalizedEmail
  else normalizedName

/-- `mergeNotes` from the source (JS truthiness: null and `""` are falsy). -/
def mergeNotes (existing newNotes : Option Str) : Option Str :=
  if truthy existing = false ∧ truthy newNotes = false then none
  else if truthy existing = false then newNotes
  else if truthy newNotes = false then existing
  else if existing = newNotes then existing
  else some (existing.getD [] ++ ';' :: ' ' :: newNotes.getD [])

/-- `mergeContacts` from the source: per field `existing || incoming`; the
merged object literal carries no `confidence` property. -/
def mergeContacts (existing newContact : Contact) : Contact :=
  { name := jsOrStr existing.name newContact.name
    role := jsOrOpt existing.role newContact.role
    department := jsOrOpt existing.department newContact.department
    phone := jsOrOpt existing.phone newContact.phone
    email := jsOrOpt existing.email newContact.email
    notes := mergeNotes existing.notes newContact.notes
    confidence := none }

/-- Insertion-ordered map lookup (JS `Map.get`). -/
def lookupAssoc : List (Str × Contact) → Str → Option Contact
  | [], _ => none
  | (k', v') :: rest, k => if k' = k then some v' else lookupAssoc rest k

/-- Insertion-ordered map update (JS `Map.set` on an existing key keeps the
key's original position). -/
def updateAssoc : List (Str × Contact) → Str → Contact → List (Str × Contact)
  | [], _, _ => []
  | (k', v') :: rest, k, v =>
    if k' = k then (k', v) :: rest else (k', v') :: updateAssoc rest k v

/-- One iteration of the `for (const contact of contacts)` loop. -/
def dedupeStep (st : List (Str × Contact) × ℕ) (contact : Contact) :
    List (Str × Contact) × ℕ :=
  let key := generateKey contact
  match lookupAssoc st.1 key with
  | some existing =>
    (updateAssoc st.1 key (mergeContacts existing contact), st.2 + 1)
  | none => (st.1 ++ [(key, contact)], st.2)

/-- `Deduplicator.deduplicate` from the source. -/
def deduplicate (contacts : List Contact) : List Contact × ℕ :=
  if contacts = [] then ([], 0)
  else
    let st := contacts.foldl dedupeStep ([], 0)
    (st.1.map Prod.snd, st.2)

end Deduplicator

example :
    Deduplicator.deduplicate
      [{ name := "John Smith".toList, role := none, department := none,
         phone := some ("555-123-4567".toList), email := none, notes := none,
         confidence := none },
       { name := "john smith".toList, role := none, department := none,
         phone := some ("(555) 123-4567".toList), email := none,
         notes := none, confidence := none }]
      = ([{ name := "John Smith".toList, role := none, department := none,
            phone := some ("555-123-4567".toList), email := none,
            notes := none, confidence := none }], 1) := by decide

/-! ## Deduplicator specification (claim C2) -/

/-- First-seen-order list of distinct keys. -/
def firstOccurFrom : List Str → List Str → List Str
  | _, [] => []
  | seen, k :: ks =>
    if k ∈ seen then firstOccurFrom seen ks
    else k :: firstOccurFrom (seen ++ [k]) ks

def firstOccur (ks : List Str) : List Str := firstOccurFrom [] ks

theorem mem_firstOccurFrom (x : Str) (ks : List Str) :
    ∀ seen, x ∈ firstOccurFrom seen ks ↔ x ∈ ks ∧ x ∉ seen := by
  induction ks with
  | nil => intro seen; simp [firstOccurFrom]
  | cons k ks ih =>
    intro seen
    by_cases hk : k ∈ seen
    · rw [show firstOccurFrom seen (k :: ks) = firstOccurFrom seen ks from by
        simp [firstOccurFrom, hk]]
      rw [ih seen]
      constructor
      · rintro ⟨h1, h2⟩
        exact ⟨List.mem_cons_of_mem _ h1, h2⟩
      · rintro ⟨h1, h2⟩
        rcases List.mem_cons.mp h1 with rfl | h1
        · exact absurd hk h2
        · exact ⟨h1, h2⟩
    · rw [show firstOccurFrom seen (k :: ks)
          = k :: firstOccurFrom (seen ++ [k]) ks from by
        simp [firstOccurFrom, hk]]
      constructor
      · intro hx
        rcases List.mem_cons.mp hx with rfl | hx
        · exact ⟨List.mem_cons_self _ _, hk⟩
        · obtain ⟨h1, h2⟩ := (ih (seen ++ [k])).mp hx
          refine ⟨List.mem_cons_of_mem _ h1, fun hc => h2 ?_⟩
          simp [hc]
      · rintro ⟨h1, h2⟩
        rcases List.mem_cons.mp h1 with rfl | h1
        · exact List.mem_cons_self _ _
        · by_cases hxk : x = k
          · subst hxk
            exact List.mem_cons_self _ _
          · refine List.mem_cons_of_mem _ ((ih (seen ++ [k])).mpr ⟨h1, ?_⟩)
            simp [h2, hxk]

theorem nodup_firstOccurFrom (ks : List Str) :
    ∀ seen, (firstOccurFrom seen ks).Nodup := by
  induction ks with
  | nil => intro seen; simp [firstOccurFrom]
  | cons k ks ih =>
    intro seen
    by_cases hk : k ∈ seen
    · rw [show firstOccurFrom seen (k :: ks) = firstOccurFrom seen ks from by
        simp [firstOccurFrom, hk]]
      exact ih seen
    · rw [show firstOccurFrom seen (k :: ks)
          = k :: firstOccurFrom (seen ++ [k]) ks from by
        simp [firstOccurFrom, hk]]
      refine List.nodup_cons.mpr ⟨fun hc => ?_, ih (seen ++ [k])⟩
      have := ((mem_firstOccurFrom k ks (seen ++ [k])).mp hc).2
      simp at this

theorem length_firstOccurFrom_le (ks : List Str) :
    ∀ seen, (firstOccurFrom seen ks).length ≤ ks.length := by
  induction ks with
  | nil => intro seen; simp [firstOccurFrom]
  | cons k ks ih =>
    intro seen
    by_cases hk : k ∈ seen
    · rw [show firstOccurFrom seen (k :: ks) = firstOccurFrom seen ks from by
        simp [firstOccurFrom, hk]]
      exact le_trans (ih seen) (by simp)
    · rw [show firstOccurFrom seen (k :: ks)
          = k :: firstOccurFrom (seen ++ [k]) ks from by
        simp [firstOccurFrom, hk]]
      simpa using ih (seen ++ [k])

theorem firstOccurFrom_append_singleton (ks : List Str) (k : Str) :
    ∀ seen, firstOccurFrom seen (ks ++ [k])
      = firstOccurFrom seen ks
        ++ (if k ∈ seen ∨ k ∈ ks then [] else [k]) := by
  induction ks with
  | nil =>
    intro seen
    by_cases hk : k ∈ seen <;> simp [firstOccurFrom, hk]
  | cons k2 ks ih =>
    intro seen
    have hcond : (k ∈ seen ++ [k2] ∨ k ∈ ks) ↔ (k ∈ seen ∨ k ∈ k2 :: ks) := by
      simp only [List.mem_append, List.mem_cons, List.mem_singleton]
      tauto
    by_cases hk2 : k2 ∈ seen
    · have e1 : firstOccurFrom seen (k2 :: (ks ++ [k]))
          = firstOccurFrom seen (ks ++ [k]) := by
        simp [firstOccurFrom, hk2]
      have e2 : firstOccurFrom seen (k2 :: ks) = firstOccurFrom seen ks := by
        simp [firstOccurFrom, hk2]
      have hcond2 : (k ∈ seen ∨ k ∈ ks) ↔ (k ∈ seen ∨ k ∈ k2 :: ks) := by
        simp only [List.mem_cons]
        constructor
        · rintro (h | h)
          · exact Or.inl h
          · exact Or.inr (Or.inr h)
        · rintro (h | h | h)
          · exact Or.inl h
          · subst h
            exact Or.inl hk2
          · exact Or.inr h
      calc firstOccurFrom seen (k2 :: ks ++ [k])
          = firstOccurFrom seen (ks ++ [k]) := e1
        _ = firstOccurFrom seen ks
            ++ (if k ∈ seen ∨ k ∈ ks then [] else [k]) := ih seen
        _ = firstOccurFrom seen (k2 :: ks)
            ++ (if k ∈ seen ∨ k ∈ k2 :: ks then [] else [k]) := by
            rw [e2, if_congr hcond2 rfl rfl]
    · have e1 : firstOccurFrom seen (k2 :: (ks ++ [k]))
          = k2 :: firstOccurFrom (seen ++ [k2]) (ks ++ [k]) := by
        simp [firstOccurFrom, hk2]
      have e2 : firstOccurFrom seen (k2 :: ks)
          = k2 :: firstOccurFrom (seen ++ [k2]) ks := by
        simp [firstOccurFrom, hk2]
      calc firstOccurFrom seen (k2 :: ks ++ [k])
          = k2 :: firstOccurFrom (seen ++ [k2]) (ks ++ [k]) := e1
        _ = k2 :: (firstOccurFrom (seen ++ [k2]) ks
            ++ (if k ∈ seen ++ [k2] ∨ k ∈ ks then [] else [k])) := by
            rw [ih (seen ++ [k2])]
        _ = (k2 :: firstOccurFrom (seen ++ [k2]) ks)
            ++ (if k ∈ seen ++ [k2] ∨ k ∈ ks then [] else [k]) := by
            simp
        _ = firstOccurFrom seen (k2 :: ks)
            ++ (if k ∈ seen ∨ k ∈ k2 :: ks then [] else [k]) := by
            rw [e2, if_congr hcond rfl rfl]

/-- The dedup key as the claim words it: the lowercased, trimmed,
whitespace-collapsed name, with `|` plus the digit-only phone appended when
that digit string has length at least 7, else `|` plus the lowercased,
trimmed email when one is present (non-empty), else the name alone. -/
def dedupKeySpec (contact : Contact) : Str :=
  let nameKey := collapseWS (jsTrim (contact.name.map toLowerChar))
  let phoneDigits := (contact.phone.getD []).filter (fun c => c.isDigit)
  let emailKey := jsTrim ((contact.email.getD []).map toLowerChar)
  if 7 ≤ phoneDigits.length then nameKey ++ '|' :: phoneDigits
  else if emailKey ≠ [] then nameKey ++ '|' :: emailKey
  else nameKey

/-- The note merge as the source actually behaves, stated independently of
the implementation: nothing truthy gives null, one truthy side wins, two
equal truthy sides keep one, two different truthy sides concatenate with
`"; "`. -/
def mergeNotesSpec (a b : Option Str) : Option Str :=
  match truthy a, truthy b with
  | false, false => none
  | false, true => b
  | true, false => a
  | true, true =>
    if a = b then a else some (a.getD [] ++ ';' :: ' ' :: b.getD [])

/-- The merge policy as the source actually has it, stated independently of
the implementation: per scalar field `existing || incoming` keeps the first
TRUTHY value — an existing empty string loses to the incoming value — and
the merged object literal carries no `confidence`, so confidence is dropped
to null on every merge. -/
def mergeContactsSpec (existing newContact : Contact) : Contact :=
  { name := if existing.name = [] then newContact.name else existing.name
    role := if truthy existing.role then existing.role else newContact.role
    department := if truthy existing.department then existing.department
                  else newContact.department
    phone := if truthy existing.phone then existing.phone
             else newContact.phone
    email := if truthy existing.email then existing.email
             else newContact.email
    notes := mergeNotesSpec existing.notes newContact.notes
    confidence := none }

/-- First non-null of two nullable values. -/
def firstNonNull {α : Type} (a b : Option α) : Option α :=
  match a with
  | some x => some x
  | none => b

/-- The note merge exactly as the claim words it: concatenate with `"; "`
when both are non-null and differ, otherwise keep whichever is non-null. -/
def mergeNotesClaim (a b : Option Str) : Option Str :=
  match a, b with
  | none, none => none
  | some x, none => some x
  | none, some y => some y
  | some x, some y => if x = y then some x else some (x ++ ';' :: ' ' :: y)

/-- The merge policy exactly as the claim words it: the first non-null
value wins for every scalar field (which would include `confidence`), and
notes merge per `mergeNotesClaim`. -/
def mergeContactsClaim (existing newContact : Contact) : Contact :=
  { name := existing.name
    role := firstNonNull existing.role newContact.role
    department := firstNonNull existing.department newContact.department
    phone := firstNonNull existing.phone newContact.phone
    email := firstNonNull existing.email newContact.email
    notes := mergeNotesClaim existing.notes newContact.notes
    confidence := firstNonNull existing.confidence newContact.confidence }

theorem mergeNotesSpec_eq (a b : Option Str) :
    mergeNotesSpec a b = Deduplicator.mergeNotes a b := by
  unfold mergeNotesSpec Deduplicator.mergeNotes
  cases ha : truthy a <;> cases hb : truthy b <;> simp [ha, hb]

theorem keySpec_eq_impl : dedupKeySpec = Deduplicator.generateKey := by
  funext c
  rcases c with ⟨name, role, dept, phone, email, notes, conf⟩
  unfold Deduplicator.generateKey dedupKeySpec
  cases phone <;> cases email <;> rfl

theorem mergeSpec_eq_impl : mergeContactsSpec = Deduplicator.mergeContacts := by
  funext a b
  unfold mergeContactsSpec Deduplicator.mergeContacts jsOrStr jsOrOpt
  rw [mergeNotesSpec_eq]

/-- The merged record for one key: the first-seen contact is authoritative
and each later same-key contact is merged into it from the left, by the
first-truthy-wins policy. -/
def mergeFoldAt (contacts : List Contact) (k : Str) : Contact :=
  match contacts.filter (fun c => dedupKeySpec c = k) with
  | [] => default
  | c :: rest => rest.foldl mergeContactsSpec c

theorem mergeFoldAt_eq_impl (contacts : List Contact) (k : Str) :
    mergeFoldAt contacts k
      = match contacts.filter (fun c => Deduplicator.generateKey c = k) with
        | [] => default
        | c :: rest => rest.foldl Deduplicator.mergeContacts c := by
  unfold mergeFoldAt
  rw [keySpec_eq_impl, mergeSpec_eq_impl]

/-- The amended description of `deduplicate`: group by the spec key, merge
each key class in order with the first-seen record authoritative, output in
first-seen key order, and count `input length - distinct keys`. -/
def dedupSpec (contacts : List Contact) : List Contact × ℕ :=
  let keys := firstOccur (contacts.map dedupKeySpec)
  (keys.map (fun k => mergeFoldAt contacts k),
   contacts.length - keys.length)

theorem lookupAssoc_map (K : List Str) (V : Str → Contact) (k0 : Str) :
    Deduplicator.lookupAssoc (K.map (fun k => (k, V k))) k0
      = if k0 ∈ K then some (V k0) else none := by
  induction K with
  | nil => simp [Deduplicator.lookupAssoc]
  | cons k K ih =>
    simp only [List.map_cons, Deduplicator.lookupAssoc]
    by_cases hk : k = k0
    · subst hk
      rw [if_pos rfl, if_pos (by simp)]
    · rw [if_neg hk, ih]
      by_cases h0 : k0 ∈ K
      · rw [if_pos h0, if_pos (by simp [h0])]
      · rw [if_neg h0, if_neg (by
          intro hc
          rcases List.mem_cons.mp hc with hc | hc
          · exact hk hc.symm
          · exact h0 hc)]

theorem updateAssoc_map (K : List Str) (V : Str → Contact) (k0 : Str)
    (v : Contact) (hnd : K.Nodup) :
    Deduplicator.updateAssoc (K.map (fun k => (k, V k))) k0 v
      = K.map (fun k => (k, if k = k0 then v else V k)) := by
  induction K with
  | nil => simp [Deduplicator.updateAssoc]
  | cons k K ih =>
    obtain ⟨hknot, hnd'⟩ := List.nodup_cons.mp hnd
    simp only [List.map_cons, Deduplicator.updateAssoc]
    by_cases hk : k = k0
    · subst hk
      rw [if_pos rfl, if_pos rfl]
      congr 1
      apply List.map_congr_left
      intro x hx
      rw [if_neg (fun hc => hknot (by rw [← hc]; exact hx))]
    · rw [if_neg hk, if_neg hk, ih hnd']

theorem filter_key_ne_nil_iff (contacts : List Contact) (k : Str) :
    contacts.filter (fun c => Deduplicator.generateKey c = k) ≠ []
      ↔ k ∈ contacts.map Deduplicator.generateKey := by
  constructor
  · intro h
    rcases hf : contacts.filter (fun c => Deduplicator.generateKey c = k)
        with _ | ⟨c0, rest⟩
    · exact absurd hf h
    · have hc0 : c0 ∈ contacts.filter
          (fun c => Deduplicator.generateKey c = k) := by
        rw [hf]
        exact List.mem_cons_self _ _
      have h2 := List.mem_filter.mp hc0
      exact List.mem_map.mpr ⟨c0, h2.1, by simpa using h2.2⟩
  · intro hmem hnil
    obtain ⟨a, ha, he⟩ := List.mem_map.mp hmem
    have h2 : a ∈ contacts.filter (fun c => Deduplicator.generateKey c = k) :=
      List.mem_filter.mpr ⟨ha, by simp [he]⟩
    rw [hnil] at h2
    simp at h2

theorem mergeFoldAt_append_ne (pr : List Contact) (c : Contact) (k : Str)
    (h : Deduplicator.generateKey c ≠ k) :
    mergeFoldAt (pr ++ [c]) k = mergeFoldAt pr k := by
  rw [mergeFoldAt_eq_impl, mergeFoldAt_eq_impl]
  rw [List.filter_append,
    show List.filter (fun x => decide (Deduplicator.generateKey x = k)) [c]
      = [] from by simp [h],
    List.append_nil]

theorem mergeFoldAt_append_self (pr : List Contact) (c : Contact) (k : Str)
    (hk : Deduplicator.generateKey c = k)
    (hmem : k ∈ pr.map Deduplicator.generateKey) :
    mergeFoldAt (pr ++ [c]) k
      = Deduplicator.mergeContacts (mergeFoldAt pr k) c := by
  rw [mergeFoldAt_eq_impl, mergeFoldAt_eq_impl]
  rw [List.filter_append,
    show List.filter (fun x => decide (Deduplicator.generateKey x = k)) [c]
      = [c] from by simp [hk]]
  rcases hf : pr.filter (fun x => Deduplicator.generateKey x = k)
      with _ | ⟨c0, rest⟩
  · exact absurd hf ((filter_key_ne_nil_iff pr k).mpr hmem)
  · rw [show (c0 :: rest) ++ [c] = c0 :: (rest ++ [c]) from rfl]
    simp [List.foldl_append]

theorem mergeFoldAt_append_new (pr : List Contact) (c : Contact) (k : Str)
    (hk : Deduplicator.generateKey c = k)
    (hmem : k ∉ pr.map Deduplicator.generateKey) :
    mergeFoldAt (pr ++ [c]) k = c := by
  rw [mergeFoldAt_eq_impl]
  have hf : pr.filter (fun x => Deduplicator.generateKey x = k) = [] := by
    by_contra hc
    exact hmem ((filter_key_ne_nil_iff pr k).mp hc)
  rw [List.filter_append, hf,
    show List.filter (fun x => decide (Deduplicator.generateKey x = k)) [c]
      = [c] from by simp [hk]]
  rfl

theorem dedupeStep_eq (st : List (Str × Contact) × ℕ) (c : Contact) :
    Deduplicator.dedupeStep st c
      = match Deduplicator.lookupAssoc st.1 (Deduplicator.generateKey c) with
        | some existing =>
          (Deduplicator.updateAssoc st.1 (Deduplicator.generateKey c)
            (Deduplicator.mergeContacts existing c), st.2 + 1)
        | none => (st.1 ++ [(Deduplicator.generateKey c, c)], st.2) := rfl

/-- The fold state of `deduplicate` in closed form: the map holds, in
first-seen key order, the left-merge of every key class, and the removed
count is the number of processed contacts minus the number of distinct
keys. -/
theorem dedupe_fold_spec (contacts : List Contact) :
    contacts.foldl Deduplicator.dedupeStep ([], 0)
      = ((firstOccur (contacts.map Deduplicator.generateKey)).map
          (fun k => (k, mergeFoldAt contacts k)),
         contacts.length
          - (firstOccur (contacts.map Deduplicator.generateKey)).length) := by
  induction contacts using List.reverseRecOn with
  | nil => rfl
  | append_singleton pr c ih =>
    have hfold : (pr ++ [c]).foldl Deduplicator.dedupeStep ([], 0)
        = Deduplicator.dedupeStep
            (pr.foldl Deduplicator.dedupeStep ([], 0)) c := by
      rw [List.foldl_append]
      rfl
    have hkeys : (pr ++ [c]).map Deduplicator.generateKey
        = pr.map Deduplicator.generateKey ++ [Deduplicator.generateKey c] :=
      by simp
    have hKlen : (firstOccur (pr.map Deduplicator.generateKey)).length
        ≤ pr.length := by
      have h2 := length_firstOccurFrom_le (pr.map Deduplicator.generateKey) []
      simpa using h2
    rw [hfold, ih, dedupeStep_eq]
    dsimp only
    rw [lookupAssoc_map]
    by_cases hmem : Deduplicator.generateKey c
        ∈ pr.map Deduplicator.generateKey
    · have hmemK : Deduplicator.generateKey c
          ∈ firstOccur (pr.map Deduplicator.generateKey) := by
        unfold firstOccur
        rw [mem_firstOccurFrom]
        exact ⟨hmem, by simp⟩
      have hkeys2 : firstOccur ((pr ++ [c]).map Deduplicator.generateKey)
          = firstOccur (pr.map Deduplicator.generateKey) := by
        unfold firstOccur
        rw [hkeys, firstOccurFrom_append_singleton,
          if_pos (Or.inr hmem), List.append_nil]
      rw [if_pos hmemK]
      dsimp only
      rw [updateAssoc_map _ _ _ _
        (show (firstOccur (pr.map Deduplicator.generateKey)).Nodup from
          nodup_firstOccurFrom _ _), hkeys2]
      refine Prod.ext ?_ ?_
      · dsimp only
        apply List.map_congr_left
        intro k hkK
        by_cases hk : k = Deduplicator.generateKey c
        · subst hk
          rw [if_pos rfl, mergeFoldAt_append_self pr c _ rfl hmem]
        · rw [if_neg hk,
            mergeFoldAt_append_ne pr c k (fun hc => hk hc.symm)]
      · dsimp only
        simp only [List.length_append, List.length_cons, List.length_nil]
        omega
    · have hmemK : Deduplicator.generateKey c
          ∉ firstOccur (pr.map Deduplicator.generateKey) := by
        unfold firstOccur
        rw [mem_firstOccurFrom]
        rintro ⟨h1, -⟩
        exact hmem h1
      have hkeys2 : firstOccur ((pr ++ [c]).map Deduplicator.generateKey)
          = firstOccur (pr.map Deduplicator.generateKey)
            ++ [Deduplicator.generateKey c] := by
        unfold firstOccur
        rw [hkeys, firstOccurFrom_append_singleton,
          if_neg (by simp [hmem])]
      rw [if_neg hmemK]
      dsimp only
      rw [hkeys2]
      refine Prod.ext ?_ ?_
      · dsimp only
        rw [List.map_append]
        congr 1
        · apply List.map_congr_left
          intro k hkK
          have hk : Deduplicator.generateKey c ≠ k := by
            intro hc
            exact hmemK (hc ▸ hkK)
          rw [mergeFoldAt_append_ne pr c k hk]
        · simp only [List.map_cons, List.map_nil]
          rw [mergeFoldAt_append_new pr c _ rfl hmem]
      · dsimp only
        simp only [List.length_append, List.length_cons, List.length_nil]
        omega

def c2exA : Contact :=
  { name := "Ann Lee".toList, role := some [], department := none,
    phone := some ("5551234567".toList), email := none, notes := none,
    confidence := some (mkRat 9 10) }

def c2exB : Contact :=
  { name := "ann lee".toList, role := some ("Producer".toList),
    department := none, phone := some ("555-123-4567".toList),
    email := none, notes := none, confidence := some (mkRat 1 2) }

/-- C2 counterexample. The claim's merge policy — the first non-null value
for every scalar field — diverges from the source twice on one same-key
pair: an existing empty-string role (non-null) loses to the incoming role,
because the source keeps the first TRUTHY value; and the merged object
literal drops `confidence`, so the first-seen non-null confidence does not
survive either. -/
theorem C2_merge_first_non_null_counterexample :
    (Deduplicator.deduplicate [c2exA, c2exB]).1
      = [Deduplicator.mergeContacts c2exA c2exB] ∧
    (Deduplicator.mergeContacts c2exA c2exB).role
      = some ("Producer".toList) ∧
    (mergeContactsClaim c2exA c2exB).role = some [] ∧
    (Deduplicator.mergeContacts c2exA c2exB).confidence = none ∧
    (mergeContactsClaim c2exA c2exB).confidence = some (mkRat 9 10) ∧
    Deduplicator.mergeContacts c2exA c2exB
      ≠ mergeContactsClaim c2exA c2exB := by
  decide

/-- C2 (amended): `Deduplicator.deduplicate` assigns each contact the
claimed key; it groups by key with the first-seen record authoritative and
later records merged in from the left — but per scalar field the existing
value wins only when TRUTHY (JS `||`: an existing empty string loses to the
incoming value), notes concatenate with `"; "` when both are truthy and
differ, and `confidence` is dropped to null on every merge; the output is
in first-seen key order; `removedCount` is the input length minus the
number of distinct keys; and the two John Smith records collapse to one
with `removedCount = 1`. -/
theorem C2_deduplicator :
    (∀ c : Contact, Deduplicator.generateKey c = dedupKeySpec c) ∧
    (∀ a b : Contact,
      Deduplicator.mergeContacts a b = mergeContactsSpec a b) ∧
    (∀ contacts : List Contact,
      Deduplicator.deduplicate contacts = dedupSpec contacts) ∧
    (Deduplicator.deduplicate
      [{ name := "John Smith".toList, role := none, department := none,
         phone := some ("555-123-4567".toList), email := none, notes := none,
         confidence := none },
       { name := "john smith".toList, role := none, department := none,
         phone := some ("(555) 123-4567".toList), email := none,
         notes := none, confidence := none }]).2 = 1 ∧
    (Deduplicator.deduplicate
      [{ name := "John Smith".toList, role := none, department := none,
         phone := some ("555-123-4567".toList), email := none, notes := none,
         confidence := none },
       { name := "john smith".toList, role := none, department := none,
         phone := some ("(555) 123-4567".toList), email := none,
         notes := none, confidence := none }]).1.length = 1 := by
  refine ⟨fun c => ?_, fun a b => ?_, fun contacts => ?_, by decide,
    by decide⟩
  · rcases c with ⟨name, role, dept, phone, email, notes, conf⟩
    unfold Deduplicator.generateKey dedupKeySpec
    cases phone <;> cases email <;> rfl
  · exact (congrFun (congrFun mergeSpec_eq_impl a) b).symm
  · by_cases hc : contacts = []
    · subst hc
      rfl
    · unfold Deduplicator.deduplicate
      rw [if_neg hc, dedupe_fold_spec]
      unfold dedupSpec
      rw [keySpec_eq_impl]
      dsimp only
      rw [List.map_map]
      rfl

/-! ## Normalization service

From `NormalizationService.normalize`: per contact, name normalization
(count + validity warning), phone normalization (count + validity warning),
role normalization (count), department inference (count), email lowercasing
with a format warning; then deduplication; emergency contacts and locations
get phone normalization only; `totalContacts` is recomputed after
deduplication. The source deep-copies its input; the model has value
semantics, so the copy is implicit. -/

structure NormalizationConfig where
  normalizePhones : Bool
  normalizeNames : Bool
  normalizeRoles : Bool
  inferDepartments : Bool
  deduplicate : Bool
  defaultCountryCode : Str
deriving DecidableEq

/-- `DEFAULT_CONFIG` from types.ts. -/
def DEFAULT_CONFIG : NormalizationConfig :=
  { normalizePhones := true
    normalizeNames := true
    normalizeRoles := true
    inferDepartments := true
    deduplicate := true
    defaultCountryCode := "1".toList }

inductive IssueType
  | warning
  | error
deriving DecidableEq

structure NormalizationIssue where
  type : IssueType
  field : Str
  contactName : Option Str
  message : Str
deriving DecidableEq

structure NormalizationStats where
  phonesNormalized : ℕ
  namesNormalized : ℕ
  rolesNormalized : ℕ
  departmentsInferred : ℕ
  duplicatesRemoved : ℕ
  totalContacts : ℕ
deriving DecidableEq

structure NormalizationResult where
  data : ExtractionResult
  stats : NormalizationStats
  issues : List NormalizationIssue
deriving DecidableEq

namespace NormalizationService

/-- `isValidEmail` from the source, the regex
`^[^\s@]+@[^\s@]+\.[^\s@]+$`: exactly one `@`, both sides non-empty and
whitespace-free, and a `.` strictly inside the domain part. -/
def isValidEmail (email : Str) : Bool :=
  match jsSplit '@' email with
  | [a, b] =>
    !a.isEmpty && !b.isEmpty
      && a.all (fun c => !isSpaceChar c) && b.all (fun c => !isSpaceChar c)
      && (b.drop 1).dropLast.contains '.'
  | _ => false

/-- Per-contact outcome: the updated contact, the four counter increments
and the issues pushed for this contact. -/
structure ContactOutcome where
  contact : Contact
  names : ℕ
  phones : ℕ
  roles : ℕ
  depts : ℕ
  issues : List NormalizationIssue

/-- Name block of the per-contact callback: normalization, count, and the
validity warning. -/
def nameStep (config : NormalizationConfig) (c0 : Contact) :
    Contact × ℕ × List NormalizationIssue :=
  if config.normalizeNames then
    let normalizedName := NameNormalizer.normalize (some c0.name)
    let changed := truthy normalizedName ∧ normalizedName ≠ some c0.name
    let c1 := if changed then { c0 with name := normalizedName.getD [] }
              else c0
    let dn := if changed then 1 else 0
    let issuesN :=
      if NameNormalizer.isValid (some c1.name) = false then
        [{ type := IssueType.warning, field := "name".toList,
           contactName := some c0.name,
           message := "Invalid or incomplete name: \"".toList
             ++ c1.name ++ "\"".toList }]
      else []
    (c1, dn, issuesN)
  else (c0, 0, [])

/-- Phone block of the per-contact callback. -/
def phoneStep (config : NormalizationConfig) (c1 : Contact) :
    Contact × ℕ × List NormalizationIssue :=
  if config.normalizePhones ∧ truthy c1.phone then
    let normalizedPhone := PhoneNormalizer.normalize c1.phone
    let changed := normalizedPhone ≠ c1.phone
    let c2 := if changed then { c1 with phone := normalizedPhone } else c1
    let dp := if changed then 1 else 0
    let issuesP :=
      if truthy c2.phone ∧ PhoneNormalizer.isValid c2.phone = false then
        [{ type := IssueType.warning, field := "phone".toList,
           contactName := some c2.name,
           message := "Invalid phone number: \"".toList
             ++ c2.phone.getD [] ++ "\"".toList }]
      else []
    (c2, dp, issuesP)
  else (c1, 0, [])

/-- Role block of the per-contact callback. -/
def roleStep (config : NormalizationConfig) (c2 : Contact) : Contact × ℕ :=
  if config.normalizeRoles ∧ truthy c2.role then
    let normalizedRole := RoleNormalizer.normalizeRole c2.role
    if truthy normalizedRole ∧ normalizedRole ≠ c2.role then
      ({ c2 with role := normalizedRole }, 1)
    else (c2, 0)
  else (c2, 0)

/-- Department block of the per-contact callback. -/
def deptStep (config : NormalizationConfig) (c3 : Contact) : Contact × ℕ :=
  if config.inferDepartments then
    let inferredDepartment :=
      RoleNormalizer.inferDepartment c3.role c3.department
    if truthy inferredDepartment ∧ truthy c3.department = false then
      ({ c3 with department := inferredDepartment }, 1)
    else (c3, 0)
  else (c3, 0)

/-- Email block of the per-contact callback. -/
def emailStep (c4 : Contact) : Contact × List NormalizationIssue :=
  if truthy c4.email then
    let e := jsTrim ((c4.email.getD []).map toLowerChar)
    let c5 := { c4 with email := some e }
    let issuesE :=
      if isValidEmail e = false then
        [{ type := IssueType.warning, field := "email".toList,
           contactName := some c5.name,
           message := "Invalid email format: \"".toList
             ++ e ++ "\"".toList }]
      else []
    (c5, issuesE)
  else (c4, [])

/-- The body of the `result.contacts.map((contact) => ...)` callback. -/
def normalizeContact (config : NormalizationConfig) (c0 : Contact) :
    ContactOutcome :=
  let s1 := nameStep config c0
  let s2 := phoneStep config s1.1
  let s3 := roleStep config s2.1
  let s4 := deptStep config s3.1
  let s5 := emailStep s4.1
  { contact := s5.1
    names := s1.2.1
    phones := s2.2.1
    roles := s3.2
    depts := s4.2
    issues := s1.2.2 ++ s2.2.2 ++ s5.2 }

/-- `NormalizationService.normalize` from the source. -/
def normalize (config : NormalizationConfig) (extraction : ExtractionResult) :
    NormalizationResult :=
  let outcomes := extraction.contacts.map (normalizeContact config)
  let contacts1 := outcomes.map (fun o => o.contact)
  let issues := (outcomes.map (fun o => o.issues)).flatten
  let dedupResult :=
    if config.deduplicate then Deduplicator.deduplicate contacts1
    else (contacts1, 0)
  let emergency := extraction.emergency_contacts.map (fun ec =>
    if config.normalizePhones ∧ truthy ec.phone then
      { ec with phone := PhoneNormalizer.normalize ec.phone }
    else ec)
  let locations := extraction.locations.map (fun loc =>
    if config.normalizePhones ∧ truthy loc.phone then
      { loc with phone := PhoneNormalizer.normalize loc.phone }
    else loc)
  { data :=
      { production_info := extraction.production_info
        contacts := dedupResult.1
        emergency_contacts := emergency
        locations := locations }
    stats :=
      { phonesNormalized := (outcomes.map (fun o => o.phones)).sum
        namesNormalized := (outcomes.map (fun o => o.names)).sum
        rolesNormalized := (outcomes.map (fun o => o.roles)).sum
        departmentsInferred := (outcomes.map (fun o => o.depts)).sum
        duplicatesRemoved := dedupResult.2
        totalContacts := dedupResult.1.length }
    issues := issues }

end NormalizationService

/-! From `validateExtraction` (validator.ts): the single structural check. -/

structure ValidationIssue where
  field : Str
  message : Str
  severity : IssueType
deriving DecidableEq

def validateExtraction (data : ExtractionResult) : List ValidationIssue :=
  if data.contacts.length = 0 then
    [{ field := "contacts".toList,
       message :=
         ("No contacts were extracted. This might be a parsing error."
           ).toList,
       severity := IssueType.warning }]
  else []

/-! ## End-to-end scenario inputs -/

def daveInputA : Contact :=
  { name := "dave o".toList ++ '\'' :: "neil".toList
    role := some ("dp".toList)
    department := none
    phone := some ("5551234567".toList)
    email := none
    notes := none
    confidence := none }

def daveInputB : Contact :=
  { name := "Dave O".toList ++ '\'' :: "Neil".toList
    role := none
    department := none
    phone := some ("555-123-4567".toList)
    email := none
    notes := none
    confidence := none }

def daveExtraction : ExtractionResult :=
  { production_info := { title := none, production_company := none,
                         shoot_date := none }
    contacts := [daveInputA, daveInputB]
    emergency_contacts := []
    locations := [] }

def daveMerged : Contact :=
  { name := "Dave O".toList ++ '\'' :: "Neil".toList
    role := some ("Director of Photography".toList)
    department := some ("Camera".toList)
    phone := some ("(555) 123-4567".toList)
    email := none
    notes := none
    confidence := none }

/-- C1: under the default configuration the two-record Dave O'Neil input
normalizes to exactly one contact with the formatted phone, the expanded
role, the inferred Camera department, and `duplicatesRemoved = 1`. -/
theorem C1_end_to_end_scenario :
    (NormalizationService.normalize DEFAULT_CONFIG daveExtraction).data.contacts
      = [daveMerged] ∧
    (NormalizationService.normalize DEFAULT_CONFIG
      daveExtraction).stats.duplicatesRemoved = 1 := by
  constructor
  · rfl
  · rfl

/-- C5 refutation at a concrete input: running `normalize` a second time on
the first run's data is not the identity. The first run turns role `dp`
into `Director of Photography`; the second run's substring lookup matches
the table key `photo` inside `photography` and rewrites the role to
`Photographer`, reporting `rolesNormalized = 1` instead of an all-zero
stats block and byte-identical data. -/
theorem C5_second_run_changes_roles :
    (NormalizationService.normalize DEFAULT_CONFIG
        (NormalizationService.normalize DEFAULT_CONFIG daveExtraction).data).data
      ≠ (NormalizationService.normalize DEFAULT_CONFIG daveExtraction).data ∧
    (NormalizationService.normalize DEFAULT_CONFIG
        (NormalizationService.normalize DEFAULT_CONFIG
          daveExtraction).data).stats.rolesNormalized = 1 ∧
    (NormalizationService.normalize DEFAULT_CONFIG
        (NormalizationService.normalize DEFAULT_CONFIG
          daveExtraction).data).data.contacts.map (fun c => c.role)
      = [some ("Photographer".toList)] := by
  refine ⟨by decide, rfl, rfl⟩

theorem nameStep_issues_warning (cfg : NormalizationConfig) (c : Contact) :
    ∀ i ∈ (NormalizationService.nameStep cfg c).2.2,
      i.type = IssueType.warning := by
  intro i hi
  unfold NormalizationService.nameStep at hi
  split_ifs at hi <;> simp_all

theorem phoneStep_issues_warning (cfg : NormalizationConfig) (c : Contact) :
    ∀ i ∈ (NormalizationService.phoneStep cfg c).2.2,
      i.type = IssueType.warning := by
  intro i hi
  unfold NormalizationService.phoneStep at hi
  split_ifs at hi <;> simp_all

theorem emailStep_issues_warning (c : Contact) :
    ∀ i ∈ (NormalizationService.emailStep c).2,
      i.type = IssueType.warning := by
  intro i hi
  unfold NormalizationService.emailStep at hi
  split_ifs at hi <;> simp_all

theorem normalizeContact_issues_warning (cfg : NormalizationConfig)
    (c : Contact) :
    ∀ i ∈ (NormalizationService.normalizeContact cfg c).issues,
      i.type = IssueType.warning := by
  intro i hi
  simp only [NormalizationService.normalizeContact] at hi
  rcases List.mem_append.mp hi with hi | hi
  · rcases List.mem_append.mp hi with hi | hi
    · exact nameStep_issues_warning cfg c i hi
    · exact phoneStep_issues_warning cfg _ i hi
  · exact emailStep_issues_warning _ i hi

theorem normalize_issues_warning (cfg : NormalizationConfig)
    (e : ExtractionResult) :
    ∀ i ∈ (NormalizationService.normalize cfg e).issues,
      i.type = IssueType.warning := by
  intro i hi
  simp only [NormalizationService.normalize] at hi
  rw [List.mem_flatten] at hi
  obtain ⟨l, hl, hil⟩ := hi
  obtain ⟨o, ho, rfl⟩ := List.mem_map.mp hl
  obtain ⟨c, -, rfl⟩ := List.mem_map.mp ho
  exact normalizeContact_issues_warning cfg c i hil

def emptyExtraction : ExtractionResult :=
  { production_info := { title := none, production_company := none,
                         shoot_date := none }
    contacts := []
    emergency_contacts := []
    locations := [] }

def emptyContactsWarning : ValidationIssue :=
  { field := "contacts".toList
    message :=
      ("No contacts were extracted. This might be a parsing error.").toList
    severity := IssueType.warning }

/-- C6 counterexample. For a semantically empty extraction,
`NormalizationService.normalize` returns an *empty* issues list — it does
not contain the claimed warning about the empty contacts array. That
warning is produced by the separate `validateExtraction` function. -/
theorem C6_empty_issues_counterexample :
    (NormalizationService.normalize DEFAULT_CONFIG emptyExtraction).issues
      = [] ∧
    (NormalizationService.normalize DEFAULT_CONFIG
      emptyExtraction).stats.totalContacts = 0 ∧
    validateExtraction emptyExtraction = [emptyContactsWarning] := by
  refine ⟨rfl, rfl, rfl⟩

/-- C6 (amended): for every configuration and semantically empty
extraction, `normalize` returns (it is a total function, so it cannot
throw) `totalContacts = 0` and an empty issues list; the empty-contacts
warning is emitted by the separate `validateExtraction`, with severity
`warning`; and every issue either function can ever produce has severity
`warning`, never `error`. -/
theorem C6_empty_extraction_amended (cfg : NormalizationConfig)
    (pi : ProductionInfo) :
    (NormalizationService.normalize cfg
      ⟨pi, [], [], []⟩).stats.totalContacts = 0 ∧
    (NormalizationService.normalize cfg ⟨pi, [], [], []⟩).issues = [] ∧
    validateExtraction ⟨pi, [], [], []⟩ = [emptyContactsWarning] ∧
    (∀ (e : ExtractionResult) (i : ValidationIssue),
      i ∈ validateExtraction e → i.severity = IssueType.warning) ∧
    (∀ (e : ExtractionResult) (i : NormalizationIssue),
      i ∈ (NormalizationService.normalize cfg e).issues →
        i.type = IssueType.warning) := by
  have hdd : (if cfg.deduplicate then Deduplicator.deduplicate []
      else ([], 0)) = (([] : List Contact), (0 : ℕ)) := by
    cases cfg.deduplicate <;> rfl
  refine ⟨?_, ?_, rfl, fun e i hi => ?_,
    fun e i hi => normalize_issues_warning cfg e i hi⟩
  · simp only [NormalizationService.normalize, List.map_nil,
      List.flatten_nil]
    rw [hdd]
    rfl
  · simp only [NormalizationService.normalize, List.map_nil,
      List.flatten_nil]
  · unfold validateExtraction at hi
    split_ifs at hi <;> simp_all

/-- Witness for the amended C6 at a concrete configuration, extraction and
issue. -/
theorem C6_empty_extraction_amended_witness :
    (NormalizationService.normalize DEFAULT_CONFIG
      emptyExtraction).stats.totalContacts = 0 ∧
    emptyContactsWarning.severity = IssueType.warning :=
  ⟨(C6_empty_extraction_amended DEFAULT_CONFIG
      ⟨none, none, none⟩).1,
   (C6_empty_extraction_amended DEFAULT_CONFIG ⟨none, none, none⟩).2.2.2.1
     emptyExtraction emptyContactsWarning (by decide)⟩


/-- A one-contact extraction whose phone fields all carry the same
non-null value `p`, on the contact, an emergency contact and a location. -/
def noDigitExtraction (p : Str) : ExtractionResult :=
  { production_info := { title := none, production_company := none,
                         shoot_date := none }
    contacts := [{ name := ['J','a','n','e',' ','D','o','e'], role := none,
                   department := none, phone := some p, email := none,
                   notes := none, confidence := none }]
    emergency_contacts := [{ type := ['H','o','s','p','i','t','a','l'],
                             name := none, phone := some p }]
    locations := [{ name := none, address := none, phone := some p }] }

/-- The result of normalizing `noDigitExtraction p` for digit-free `p`:
every phone has been silently replaced by null and no issue was recorded. -/
def noDigitResult : NormalizationResult :=
  { data :=
      { production_info := { title := none, production_company := none,
                             shoot_date := none }
        contacts := [{ name := ['J','a','n','e',' ','D','o','e'],
                       role := none, department := none, phone := none,
                       email := none, notes := none, confidence := none }]
        emergency_contacts := [{ type := ['H','o','s','p','i','t','a','l'],
                                 name := none, phone := none }]
        locations := [{ name := none, address := none, phone := none }] }
    stats :=
      { phonesNormalized := 1, namesNormalized := 0, rolesNormalized := 0,
        departmentsInferred := 0, duplicatesRemoved := 0, totalContacts := 1 }
    issues := [] }

theorem phone_normalize_none_of_no_digit (p : Str)
    (hnd : ∀ c ∈ p, c.isDigit = false) :
    PhoneNormalizer.normalize (some p) = none := by
  have hfd : p.filter (fun c => c.isDigit) = [] :=
    List.filter_eq_nil_iff.mpr (fun a ha => by simp [hnd a ha])
  rw [phone_normalize_eq_spec]
  unfold phoneSpecNormalize
  simp [hfd]

/-- C10: a non-null input with no digit characters normalizes to null, and
the normalization service therefore replaces such a non-null phone with
null — on contacts, emergency contacts and locations — silently, with no
issue recorded for the erased value. -/
theorem C10_silent_phone_erasure :
    (∀ p : Str, (∀ c ∈ p, c.isDigit = false) →
      PhoneNormalizer.normalize (some p) = none) ∧
    (∀ p : Str, p ≠ [] → (∀ c ∈ p, c.isDigit = false) →
      NormalizationService.normalize DEFAULT_CONFIG (noDigitExtraction p)
        = noDigitResult) := by
  refine ⟨phone_normalize_none_of_no_digit, fun p hne hnd => ?_⟩
  have h1 : PhoneNormalizer.normalize (some p) = none :=
    phone_normalize_none_of_no_digit p hnd
  have hpe : truthy (some p) = true := by
    simp [truthy, List.isEmpty_iff, hne]
  have hname : NameNormalizer.normalize (some ['J','a','n','e',' ','D','o','e'])
      = some ['J','a','n','e',' ','D','o','e'] := by decide
  have hvalid : NameNormalizer.isValid (some ['J','a','n','e',' ','D','o','e'])
      = true := by decide
  have hns : NormalizationService.nameStep DEFAULT_CONFIG
      { name := ['J','a','n','e',' ','D','o','e'], role := none,
        department := none, phone := some p, email := none, notes := none,
        confidence := none }
      = ({ name := ['J','a','n','e',' ','D','o','e'], role := none,
           department := none, phone := some p, email := none, notes := none,
           confidence := none }, 0, []) := by
    simp [NormalizationService.nameStep, DEFAULT_CONFIG, hname, hvalid, truthy]
  have hps : NormalizationService.phoneStep DEFAULT_CONFIG
      { name := ['J','a','n','e',' ','D','o','e'], role := none,
        department := none, phone := some p, email := none, notes := none,
        confidence := none }
      = ({ name := ['J','a','n','e',' ','D','o','e'], role := none,
           department := none, phone := none, email := none, notes := none,
           confidence := none }, 1, []) := by
    simp [NormalizationService.phoneStep, DEFAULT_CONFIG, hpe, h1, truthy,
      hne]
  have hout : NormalizationService.normalizeContact DEFAULT_CONFIG
      { name := ['J','a','n','e',' ','D','o','e'], role := none,
        department := none, phone := some p, email := none, notes := none,
        confidence := none }
      = { contact := { name := ['J','a','n','e',' ','D','o','e'],
                       role := none, department := none, phone := none,
                       email := none, notes := none, confidence := none },
          names := 0, phones := 1, roles := 0, depts := 0, issues := [] } := by
    unfold NormalizationService.normalizeContact
    rw [hns]
    dsimp only
    rw [hps]
    rfl
  have hdd : Deduplicator.deduplicate
      [{ name := ['J','a','n','e',' ','D','o','e'], role := none,
         department := none, phone := none, email := none, notes := none,
         confidence := none }]
      = ([{ name := ['J','a','n','e',' ','D','o','e'], role := none,
            department := none, phone := none, email := none, notes := none,
            confidence := none }], 0) := by decide
  unfold NormalizationService.normalize noDigitExtraction
  dsimp only [List.map_cons, List.map_nil]
  rw [hout]
  dsimp only
  rw [hdd]
  rw [if_pos (show DEFAULT_CONFIG.normalizePhones = true ∧
        truthy (some p) = true from ⟨rfl, hpe⟩)]
  rw [if_pos (show DEFAULT_CONFIG.normalizePhones = true ∧
        truthy (some p) = true from ⟨rfl, hpe⟩)]
  rw [h1]
  rfl

theorem C10_silent_phone_erasure_witness :
    PhoneNormalizer.normalize (some ("ext. TBD".toList)) = none ∧
    NormalizationService.normalize DEFAULT_CONFIG
      (noDigitExtraction ("ext. TBD".toList)) = noDigitResult :=
  ⟨C10_silent_phone_erasure.1 ("ext. TBD".toList) (by decide),
   C10_silent_phone_erasure.2 ("ext. TBD".toList) (by decide) (by decide)⟩

/-! ## Document processing pipeline (document/types.ts, part_010) -/

/-- `DocumentType` from document/types.ts. -/
inductive DocumentType where
  | pdf
  | image
  | text
  | unknown
deriving DecidableEq

/-- `strategy` field values of `ProcessedDocument`. -/
inductive Strategy where
  | textExtraction
  | vision
  | directText
deriving DecidableEq

/-- `DocumentMetadata` from document/types.ts. -/
structure DocumentMetadata where
  originalFilename : Str
  mimeType : Str
  size : ℕ
  pageCount : Option ℕ
deriving DecidableEq

/-- `ProcessedDocument` from document/types.ts; the optional `textContent`
and `images` fields become `Option`s. -/
structure ProcessedDocument where
  type : DocumentType
  textContent : Option Str
  images : Option (List Str)
  metadata : DocumentMetadata
  strategy : Strategy
  requiresVision : Bool
deriving DecidableEq

/-- `ProcessorResult`: every construction site in the source either sets
`success: true` with a document or `success: false` with an error. -/
inductive ProcessorResult where
  | success (doc : ProcessedDocument)
  | failure (error : Str)
deriving DecidableEq

namespace DocumentRouter

/-- The five registered adapters, in registration order. -/
inductive AdapterKind where
  | pdf
  | word
  | excel
  | image
  | text
deriving DecidableEq

/-- `PdfProcessor.canProcess`. -/
def pdfCanProcess (content : Str) (hint : Option Str) : Bool :=
  begins ("data:application/pdf".toList) content
    || decide (hint = some ("application/pdf".toList))

/-- `WordProcessor.canProcess`. -/
def wordCanProcess (content : Str) (hint : Option Str) : Bool :=
  begins
      (("data:application/vnd.openxmlformats-officedocument"
        ++ ".wordprocessingml").toList) content
    || decide (hint = some (("application/vnd.openxmlformats-officedocument"
        ++ ".wordprocessingml.document").toList))
    || decide (hint = some ("application/msword".toList))

/-- `ExcelProcessor.canProcess`. -/
def excelCanProcess (content : Str) (hint : Option Str) : Bool :=
  begins
      (("data:application/vnd.openxmlformats-officedocument"
        ++ ".spreadsheetml").toList) content
    || begins ("data:application/vnd.ms-excel".toList) content
    || decide (hint = some (("application/vnd.openxmlformats-officedocument"
        ++ ".spreadsheetml.sheet").toList))
    || decide (hint = some ("application/vnd.ms-excel".toList))

/-- `SUPPORTED_IMAGE_TYPES` from image.processor.ts. -/
def SUPPORTED_IMAGE_TYPES : List Str :=
  ["image/png".toList, "image/jpeg".toList, "image/jpg".toList,
   "image/gif".toList, "image/webp".toList]

/-- `ImageProcessor.canProcess`: data-URL marker, or a truthy hint listed in
`SUPPORTED_IMAGE_TYPES`. -/
def imageCanProcess (content : Str) (hint : Option Str) : Bool :=
  if begins ("data:image/".toList) content then true
  else if truthy hint && SUPPORTED_IMAGE_TYPES.contains (hint.getD []) then
    true
  else false

/-- `TextProcessor.canProcess`: not a data URL, or a text data URL, or a
hint starting with `text/` (optional chaining: a missing hint is false). -/
def textCanProcess (content : Str) (hint : Option Str) : Bool :=
  if !begins ("data:".toList) content then true
  else if begins ("data:text/".toList) content then true
  else if (match hint with
           | some m => begins ("text/".toList) m
           | none => false) then true
  else false

/-- The first `detectType` condition: explicit PDF marker or hint. -/
def pdfMarkerB (content : Str) (hint : Option Str) : Bool :=
  begins ("data:application/pdf".toList) content
    || decide (hint = some ("application/pdf".toList))

/-- The second `detectType` condition: image marker or an `image/` hint. -/
def imageMarkerB (content : Str) (hint : Option Str) : Bool :=
  begins ("data:image/".toList) content
    || (match hint with
        | some m => begins ("image/".toList) m
        | none => false)

/-- The third `detectType` condition: text marker, `text/` hint, or no
`data:` marker at all. -/
def textMarkerB (content : Str) (hint : Option Str) : Bool :=
  begins ("data:text/".toList) content
    || (match hint with
        | some m => begins ("text/".toList) m
        | none => false)
    || !begins ("data:".toList) content

/-- `DocumentProcessingService.detectType` from the source: a cascade of
early returns. -/
def detectType (content : Str) (hint : Option Str) : DocumentType :=
  if pdfMarkerB content hint then DocumentType.pdf
  else if imageMarkerB content hint then DocumentType.image
  else if textMarkerB content hint then DocumentType.text
  else DocumentType.unknown

/-- The spec's reading of `detectType`: a priority-ordered rule list where
the first matching rule wins and `unknown` is the fall-through. -/
def detectTypeSpec (content : Str) (hint : Option Str) : DocumentType :=
  let rules : List (Bool × DocumentType) :=
    [(pdfMarkerB content hint, DocumentType.pdf),
     (imageMarkerB content hint, DocumentType.image),
     (textMarkerB content hint, DocumentType.text)]
  match rules.find? (fun r => r.1) with
  | some r => r.2
  | none => DocumentType.unknown

/-- Registration order in the `DocumentProcessingService` constructor. -/
def adapterOrder : List AdapterKind :=
  [AdapterKind.pdf, AdapterKind.word, AdapterKind.excel, AdapterKind.image,
   AdapterKind.text]

/-- Dispatch table tying each adapter to its `canProcess` predicate. -/
def canProcess : AdapterKind → Str → Option Str → Bool
  | AdapterKind.pdf => pdfCanProcess
  | AdapterKind.word => wordCanProcess
  | AdapterKind.excel => excelCanProcess
  | AdapterKind.image => imageCanProcess
  | AdapterKind.text => textCanProcess

/-- The error returned by `process` when no adapter matches. -/
def unsupportedMessage : Str :=
  ("Unsupported document format. Supported formats: PDF, Word (.docx), "
    ++ "Excel (.xlsx), PNG, JPG, GIF, WebP, plain text.").toList

/-- `DocumentProcessingService.process`: the `for` loop returns the first
matching adapter's own result; each adapter's `process` is an external
effect, passed in as the oracle `results`. -/
def processDispatch (results : AdapterKind → ProcessorResult)
    (content : Str) (hint : Option Str) : ProcessorResult :=
  match adapterOrder.find? (fun a => canProcess a content hint) with
  | some a => results a
  | none => ProcessorResult.failure unsupportedMessage

end DocumentRouter

/-- C7: `detectType` returns exactly one of the four `DocumentType` values
(by construction) and agrees on every input with the spec's priority-ordered
first-match rule list; `process` tries the adapters in the fixed order
PDF, Word, Excel, Image, Text, returns the first matching adapter's result
verbatim without falling through, and fails with the unsupported-format
error when no predicate matches. -/
theorem C7_document_router :
    (∀ (content : Str) (hint : Option Str),
      DocumentRouter.detectType content hint
        = DocumentRouter.detectTypeSpec content hint) ∧
    (∀ (results : DocumentRouter.AdapterKind → ProcessorResult)
       (content : Str) (hint : Option Str),
      (DocumentRouter.pdfCanProcess content hint = true →
        DocumentRouter.processDispatch results content hint
          = results DocumentRouter.AdapterKind.pdf) ∧
      (DocumentRouter.pdfCanProcess content hint = false →
       DocumentRouter.wordCanProcess content hint = true →
        DocumentRouter.processDispatch results content hint
          = results DocumentRouter.AdapterKind.word) ∧
      (DocumentRouter.pdfCanProcess content hint = false →
       DocumentRouter.wordCanProcess content hint = false →
       DocumentRouter.excelCanProcess content hint = true →
        DocumentRouter.processDispatch results content hint
          = results DocumentRouter.AdapterKind.excel) ∧
      (DocumentRouter.pdfCanProcess content hint = false →
       DocumentRouter.wordCanProcess content hint = false →
       DocumentRouter.excelCanProcess content hint = false →
       DocumentRouter.imageCanProcess content hint = true →
        DocumentRouter.processDispatch results content hint
          = results DocumentRouter.AdapterKind.image) ∧
      (DocumentRouter.pdfCanProcess content hint = false →
       DocumentRouter.wordCanProcess content hint = false →
       DocumentRouter.excelCanProcess content hint = false →
       DocumentRouter.imageCanProcess content hint = false →
       DocumentRouter.textCanProcess content hint = true →
        DocumentRouter.processDispatch results content hint
          = results DocumentRouter.AdapterKind.text) ∧
      (DocumentRouter.pdfCanProcess content hint = false →
       DocumentRouter.wordCanProcess content hint = false →
       DocumentRouter.excelCanProcess content hint = false →
       DocumentRouter.imageCanProcess content hint = false →
       DocumentRouter.textCanProcess content hint = false →
        DocumentRouter.processDispatch results content hint
          = ProcessorResult.failure DocumentRouter.unsupportedMessage)) := by
  constructor
  · intro content hint
    unfold DocumentRouter.detectType DocumentRouter.detectTypeSpec
    cases h1 : DocumentRouter.pdfMarkerB content hint <;>
      cases h2 : DocumentRouter.imageMarkerB content hint <;>
        cases h3 : DocumentRouter.textMarkerB content hint <;>
          simp [List.find?, h1, h2, h3]
  · intro results content hint
    refine ⟨fun h1 => ?_, fun h1 h2 => ?_, fun h1 h2 h3 => ?_,
      fun h1 h2 h3 h4 => ?_, fun h1 h2 h3 h4 h5 => ?_,
      fun h1 h2 h3 h4 h5 => ?_⟩ <;>
      · unfold DocumentRouter.processDispatch DocumentRouter.adapterOrder
        simp_all [List.find?, DocumentRouter.canProcess]

/-- Oracle used in the C7 witness: each adapter reports a distinct result. -/
def routerOracle : DocumentRouter.AdapterKind → ProcessorResult
  | DocumentRouter.AdapterKind.pdf => ProcessorResult.failure ['p']
  | DocumentRouter.AdapterKind.word => ProcessorResult.failure ['w']
  | DocumentRouter.AdapterKind.excel => ProcessorResult.failure ['x']
  | DocumentRouter.AdapterKind.image => ProcessorResult.failure ['i']
  | DocumentRouter.AdapterKind.text => ProcessorResult.failure ['t']

/-- A Word data URL used in the C7 witness. -/
def wordContent : Str :=
  (("data:application/vnd.openxmlformats-officedocument"
    ++ ".wordprocessingml.document;base64,AA==").toList)

theorem C7_document_router_witness :
    DocumentRouter.detectType wordContent none
      = DocumentRouter.detectTypeSpec wordContent none ∧
    DocumentRouter.pdfCanProcess wordContent none = false ∧
    DocumentRouter.wordCanProcess wordContent none = true ∧
    DocumentRouter.processDispatch routerOracle wordContent none
      = ProcessorResult.failure ['w'] :=
  ⟨C7_document_router.1 wordContent none, by decide, by decide,
   ((C7_document_router.2 routerOracle wordContent none).2.1
     (by decide) (by decide)).trans rfl⟩

/-! ## PDF processor (pdf.processor.ts) -/

namespace PdfProcessor

/-- External effects of `PdfProcessor.process`. `thrown` is a filesystem
error reaching the outer catch (`mkdir`/`writeFile`; the helper methods
catch their own errors). `pageCount` is `getPageCount`s total result.
`extract` is the `pdftotext` run inside `extractText`; `raster` is the
whole `pdftoppm`-and-read block inside `convertToImages`, as a function of
the page count actually requested. `bufLen` is `pdfBuffer.length`. -/
structure PdfEnv where
  thrown : Option Str
  pageCount : ℕ
  extract : Except Str Str
  raster : ℕ → Except Str (List Str)
  bufLen : ℕ

/-- `extractText`: the `pdftotext` output, or `""` when the command
fails (the error is caught and swallowed). -/
def extractedText (env : PdfEnv) : Str :=
  match env.extract with
  | Except.ok s => s
  | Except.error _ => []

/-- `convertToImages`: rasterize `min(pageCount, MAX_PAGES_FOR_VISION)`
pages; any error is caught and yields `[]`. -/
def rasterImages (env : PdfEnv) : List Str :=
  match env.raster (min env.pageCount 5) with
  | Except.ok l => l
  | Except.error _ => []

/-- The `/^data:application\/pdf;base64,(.+)$/` match: the capture is the
non-empty remainder after the fixed header, with no line terminator (`.`
does not match them and the regex has no `s` or `m` flag). -/
def pdfDataMatch (content : Str) : Option Str :=
  let pre := ("data:application/pdf;base64,").toList
  let rest := content.drop pre.length
  if begins pre content && !rest.isEmpty
      && rest.all (fun c => !(c = '\n' || c = '\r')) then some rest
  else none

def invalidMsg : Str := ("Invalid PDF data URL format").toList

def corruptMsg : Str :=
  ("Failed to convert PDF to images. The file may be corrupted.").toList

def toolMsg : Str :=
  ("PDF processing tools not installed. Please install poppler-utils."
    ).toList

/-- `PdfProcessor.process`. A thrown filesystem error lands in the outer
catch, which inspects the message for `not found` / `ENOENT`; otherwise
the data URL is parsed, text extraction is tried first against the
100-character threshold on the *trimmed* text, and the fallback rasterizes
at most five pages, failing as corrupt when no image is produced. -/
def pdfProcess (env : PdfEnv) (content : Str) (filename : Str) :
    ProcessorResult :=
  match env.thrown with
  | some msg =>
    if containsSeq ("not found".toList) msg
        || containsSeq ("ENOENT".toList) msg then
      ProcessorResult.failure toolMsg
    else ProcessorResult.failure (("PDF processing failed: ").toList ++ msg)
  | none =>
    match pdfDataMatch content with
    | none => ProcessorResult.failure invalidMsg
    | some _rest =>
      let textContent := extractedText env
      if 100 ≤ (jsTrim textContent).length then
        ProcessorResult.success
          { type := DocumentType.pdf
            textContent := some textContent
            images := none
            metadata := { originalFilename := filename,
                          mimeType := ("application/pdf").toList,
                          size := env.bufLen,
                          pageCount := some env.pageCount }
            strategy := Strategy.textExtraction
            requiresVision := false }
      else
        let images := rasterImages env
        if images.length = 0 then ProcessorResult.failure corruptMsg
        else
          ProcessorResult.success
            { type := DocumentType.pdf
              textContent := none
              images := some images
              metadata := { originalFilename := filename,
                            mimeType := ("application/pdf").toList,
                            size := env.bufLen,
                            pageCount := some env.pageCount }
              strategy := Strategy.vision
              requiresVision := true }

end PdfProcessor

def c8padText : Str := List.replicate 100 ' ' ++ ['a']

def c8content : Str := ("data:application/pdf;base64,AAAA").toList

/-- Environment for the C8 counterexample: extraction yields 101 raw
characters that trim to one, and `pdftoppm` is missing, so rasterization
throws a `not found` error inside `convertToImages`. -/
def c8badEnv : PdfProcessor.PdfEnv :=
  { thrown := none, pageCount := 3,
    extract := Except.ok c8padText,
    raster := fun _ => Except.error (("pdftoppm: not found").toList),
    bufLen := 10 }

/-- C8 counterexample. The claim keys the text/vision split to the raw
extracted-text length, but the source trims first: 101 raw characters that
trim below 100 take the vision path. And a missing renderer binary is
caught inside `convertToImages`, so the run ends in the generic
corrupt-document failure, which names no tool: the message mentions
neither `not found` nor `poppler`. -/
theorem C8_pdf_counterexample :
    100 ≤ c8padText.length ∧
    (jsTrim c8padText).length < 100 ∧
    PdfProcessor.pdfProcess c8badEnv c8content ['f']
      = ProcessorResult.failure PdfProcessor.corruptMsg ∧
    containsSeq ("not found".toList) PdfProcessor.corruptMsg = false ∧
    containsSeq ("poppler".toList) PdfProcessor.corruptMsg = false := by
  decide

/-- C8 (amended): with no filesystem error and a well-formed data URL,
`PdfProcessor.process` succeeds with `text-extraction` and no vision when
the *trimmed* extracted text reaches 100 characters; below that it succeeds
with `vision` on the rasterized images when any were produced, and fails
as a corrupt document when none were; under the renderer contract that
rasterizing `n` pages yields at most `n` images, at most
`min(pageCount, 5) ≤ 5` images are ever attached. A failure naming the
missing tool arises only from an error reaching the outer catch whose
message mentions `not found` or `ENOENT`; any other such error yields the
generic failure. -/
theorem C8_pdf_processor :
    (∀ (env : PdfProcessor.PdfEnv) (content filename rest : Str),
      env.thrown = none →
      PdfProcessor.pdfDataMatch content = some rest →
      ((100 ≤ (jsTrim (PdfProcessor.extractedText env)).length →
        PdfProcessor.pdfProcess env content filename
          = ProcessorResult.success
            { type := DocumentType.pdf
              textContent := some (PdfProcessor.extractedText env)
              images := none
              metadata := { originalFilename := filename,
                            mimeType := ("application/pdf").toList,
                            size := env.bufLen,
                            pageCount := some env.pageCount }
              strategy := Strategy.textExtraction
              requiresVision := false }) ∧
       ((jsTrim (PdfProcessor.extractedText env)).length < 100 →
        PdfProcessor.rasterImages env ≠ [] →
        PdfProcessor.pdfProcess env content filename
          = ProcessorResult.success
            { type := DocumentType.pdf
              textContent := none
              images := some (PdfProcessor.rasterImages env)
              metadata := { originalFilename := filename,
                            mimeType := ("application/pdf").toList,
                            size := env.bufLen,
                            pageCount := some env.pageCount }
              strategy := Strategy.vision
              requiresVision := true }) ∧
       ((jsTrim (PdfProcessor.extractedText env)).length < 100 →
        PdfProcessor.rasterImages env = [] →
        PdfProcessor.pdfProcess env content filename
          = ProcessorResult.failure PdfProcessor.corruptMsg))) ∧
    (∀ env : PdfProcessor.PdfEnv,
      (∀ n l, env.raster n = Except.ok l → l.length ≤ n) →
      (PdfProcessor.rasterImages env).length ≤ 5) ∧
    (∀ (env : PdfProcessor.PdfEnv) (content filename msg : Str),
      env.thrown = some msg →
      ((containsSeq ("not found".toList) msg
          || containsSeq ("ENOENT".toList) msg) = true →
        PdfProcessor.pdfProcess env content filename
          = ProcessorResult.failure PdfProcessor.toolMsg) ∧
      ((containsSeq ("not found".toList) msg
          || containsSeq ("ENOENT".toList) msg) = false →
        PdfProcessor.pdfProcess env content filename
          = ProcessorResult.failure
              ((("PDF processing failed: ").toList ++ msg)))) := by
  refine ⟨fun env content filename rest h0 hm => ⟨?_, ?_, ?_⟩,
    fun env hc => ?_, fun env content filename msg h0 => ⟨?_, ?_⟩⟩
  · intro h
    simp only [PdfProcessor.pdfProcess, h0, hm]
    rw [if_pos h]
  · intro h hne
    simp only [PdfProcessor.pdfProcess, h0, hm]
    rw [if_neg (by omega),
      if_neg (fun hz => hne (List.length_eq_zero.mp hz))]
  · intro h hz
    simp only [PdfProcessor.pdfProcess, h0, hm]
    rw [if_neg (by omega), if_pos (by simp [hz])]
  · cases hr : env.raster (min env.pageCount 5) with
    | ok l =>
      simp only [PdfProcessor.rasterImages, hr]
      exact le_trans (hc _ _ hr) (min_le_right _ _)
    | error e =>
      simp [PdfProcessor.rasterImages, hr]
  · intro h
    simp only [PdfProcessor.pdfProcess, h0]
    rw [if_pos h]
  · intro h
    simp only [PdfProcessor.pdfProcess, h0]
    rw [if_neg (fun hh => Bool.false_ne_true (h ▸ hh))]

/-- Environment for the C8 witness: extraction succeeds with 100
non-blank characters. -/
def c8okEnv : PdfProcessor.PdfEnv :=
  { thrown := none, pageCount := 2,
    extract := Except.ok (List.replicate 100 'a'),
    raster := fun _ => Except.ok [],
    bufLen := 4 }

/-- Environment for the C8 witness, tool-failure side: a spawn error
mentioning `ENOENT` reaches the outer catch. -/
def c8enoentEnv : PdfProcessor.PdfEnv :=
  { thrown := some (("spawn pdftotext ENOENT").toList), pageCount := 1,
    extract := Except.error [],
    raster := fun _ => Except.ok [],
    bufLen := 4 }

theorem C8_pdf_processor_witness :
    PdfProcessor.pdfDataMatch c8content = some ("AAAA".toList) ∧
    100 ≤ (jsTrim (PdfProcessor.extractedText c8okEnv)).length ∧
    PdfProcessor.pdfProcess c8okEnv c8content ['f']
      = ProcessorResult.success
        { type := DocumentType.pdf
          textContent := some (List.replicate 100 'a')
          images := none
          metadata := { originalFilename := ['f'],
                        mimeType := ("application/pdf").toList,
                        size := 4, pageCount := some 2 }
          strategy := Strategy.textExtraction
          requiresVision := false } ∧
    (PdfProcessor.rasterImages c8okEnv).length ≤ 5 ∧
    PdfProcessor.pdfProcess c8enoentEnv c8content ['f']
      = ProcessorResult.failure PdfProcessor.toolMsg :=
  ⟨by decide, by decide,
   ((C8_pdf_processor.1 c8okEnv c8content ['f'] ("AAAA".toList) rfl
       (by decide)).1 (by decide)).trans rfl,
   C8_pdf_processor.2.1 c8okEnv
     (fun n l h => by cases h; simp),
   (C8_pdf_processor.2.2 c8enoentEnv c8content ['f']
       (("spawn pdftotext ENOENT").toList) rfl).1 (by decide)⟩

/-! ## Word, Excel, Image and Text processors -/

/-- Decimal rendering for interpolated numbers in error messages. -/
def natToStr (n : ℕ) : Str := (toString n).toList

/-- The `/^data:[^;]+;base64,(.+)$/` match shared by the Word and Excel
processors: `[^;]+` necessarily stops at the first `;`, and the `.+`
capture is non-empty with no line terminator. -/
def dataUrlBase64Match (content : Str) : Option Str :=
  if begins ("data:".toList) content then
    let after := content.drop 5
    let mid := after.takeWhile (fun c => !(c = ';'))
    let rest0 := after.drop mid.length
    if !mid.isEmpty && begins ((";base64,").toList) rest0 then
      let rest := rest0.drop 8
      if !rest.isEmpty && rest.all (fun c => !(c = '\n' || c = '\r')) then
        some rest
      else none
    else none
  else none

namespace WordProcessor

def truncNote : Str :=
  ("\n\n[Document truncated - showing first 50,000 characters]").toList

/-- `WordProcessor.process`. `mammoth` is the external text extraction:
a thrown error, or the extracted `result.value` (`|| ""` handles a null
value). `bufLen` is `docBuffer.length`. -/
def wordProcess (mammoth : Except Str (Option Str)) (bufLen : ℕ)
    (content filename : Str) : ProcessorResult :=
  match dataUrlBase64Match content with
  | none =>
    ProcessorResult.failure (("Invalid Word document data URL format").toList)
  | some _rest =>
    match mammoth with
    | Except.error e =>
      ProcessorResult.failure
        ((("Word document processing failed: ").toList ++ e))
    | Except.ok v =>
      let textContent := if truthy v then v.getD [] else []
      if (jsTrim textContent).length < 50 then
        ProcessorResult.failure
          ((("Word document has insufficient text content (").toList
            ++ natToStr (jsTrim textContent).length
            ++ (" characters).").toList))
      else
        let text1 := if 50000 < textContent.length then
            textContent.take 50000 ++ truncNote
          else textContent
        ProcessorResult.success
          { type := DocumentType.text
            textContent := some text1
            images := none
            metadata := { originalFilename := filename,
                          mimeType :=
                            (("application/vnd.openxmlformats-officedocument"
                              ++ ".wordprocessingml.document").toList),
                          size := bufLen, pageCount := none }
            strategy := Strategy.textExtraction
            requiresVision := false }

end WordProcessor

namespace ExcelProcessor

/-- `!cell || String(cell).trim() === ""`. -/
def rowEmpty (row : List Str) : Bool :=
  row.all (fun cell => cell.isEmpty || (jsTrim cell).isEmpty)

/-- `row.map((cell) => String(cell || "").trim()).join(" | ")`. -/
def formatRow (row : List Str) : Str :=
  joinSep ((" | ").toList) (row.map jsTrim)

/-- `formatSheetAsText`: the header, a blank line, and each non-empty row
pipe-joined, all joined by newlines. -/
def formatSheetAsText (name : Str) (rows : List (List Str)) : Str :=
  joinSep ['\n']
    (((("=== Sheet: ").toList ++ name ++ (" ===").toList) :: [] ::
      (rows.filter (fun r => !rowEmpty r)).map formatRow))

def truncNote : Str :=
  ("\n\n[Document truncated - showing first 50,000 characters]").toList

/-- `ExcelProcessor.process`. `sheets` is the external `XLSX` read: a
thrown error, or the workbook as a list of (sheet name, rows); sheets with
no rows are skipped, formatted sheets are kept when their text trims
non-empty, and the parts are joined by `\n\n---\n\n`. -/
def excelProcess (sheets : Except Str (List (Str × List (List Str))))
    (bufLen : ℕ) (content filename : Str) : ProcessorResult :=
  match dataUrlBase64Match content with
  | none =>
    ProcessorResult.failure
      (("Invalid Excel document data URL format").toList)
  | some _rest =>
    match sheets with
    | Except.error e =>
      ProcessorResult.failure
        ((("Excel document processing failed: ").toList ++ e))
    | Except.ok ss =>
      if ss.length = 0 then
        ProcessorResult.failure (("Excel file contains no sheets").toList)
      else
        let textParts :=
          (((ss.filter (fun s => !(s.2.length = 0))).map
              (fun s => formatSheetAsText s.1 s.2)).filter
            (fun t => !(jsTrim t).isEmpty))
        let textContent := joinSep (("\n\n---\n\n").toList) textParts
        if (jsTrim textContent).length < 50 then
          ProcessorResult.failure
            ((("Excel file has insufficient data (").toList
              ++ natToStr (jsTrim textContent).length
              ++ (" characters). The file may be empty or contain only "
                  ++ "formatting.").toList))
        else
          let text1 := if 50000 < textContent.length then
              textContent.take 50000 ++ truncNote
            else textContent
          ProcessorResult.success
            { type := DocumentType.text
              textContent := some text1
              images := none
              metadata := { originalFilename := filename,
                            mimeType :=
                              (("application/vnd.openxmlformats-office"
                                ++ "document.spreadsheetml.sheet").toList),
                            size := bufLen, pageCount := none }
              strategy := Strategy.textExtraction
              requiresVision := false }

end ExcelProcessor

namespace ImageProcessor

/-- The `/^data:(image\/[a-z]+);base64,/` match: `[a-z]+` necessarily
stops at the `;`; the capture is `image/` plus the letters. The regex is
not end-anchored. -/
def imageMimeMatch (content : Str) : Option Str :=
  if begins ("data:image/".toList) content then
    let after := content.drop 11
    let letters := after.takeWhile (fun c => 'a' ≤ c && c ≤ 'z')
    if !letters.isEmpty
        && begins ((";base64,").toList) (after.drop letters.length) then
      some (("image/").toList ++ letters)
    else none
  else none

/-- Tenths of a megabyte, rounded to nearest with ties up: exactly
`(size / 1024 / 1024).toFixed(1)` on an integer byte count, since
`size / 2^20` is exact in double precision and `toFixed` picks the larger
of two equally close candidates. -/
def mbTenths (size : ℕ) : ℕ := (size * 10 + 524288) / 1048576

def imageTooLargeMsg (size : ℕ) : Str :=
  ("Image too large (").toList ++ natToStr (mbTenths size / 10) ++ '.' ::
    natToStr (mbTenths size % 10)
    ++ ("MB). Maximum size is 20MB.").toList

/-- `ImageProcessor.process`: validate the data URL and mime type, bound
the approximate decoded size (`ceil(len * 3 / 4)`) by 20MB, and pass the
data URL through for vision. -/
def imageProcess (content filename : Str) : ProcessorResult :=
  match imageMimeMatch content with
  | none => ProcessorResult.failure (("Invalid image data URL format").toList)
  | some mime =>
    if !(DocumentRouter.SUPPORTED_IMAGE_TYPES.contains mime) then
      ProcessorResult.failure
        ((("Unsupported image type: ").toList ++ mime
          ++ (". Supported: PNG, JPG, GIF, WebP").toList))
    else
      let base64Data := ((jsSplit ',' content).drop 1).headD []
      let size := (3 * base64Data.length + 3) / 4
      if 20971520 < size then
        ProcessorResult.failure (imageTooLargeMsg size)
      else
        ProcessorResult.success
          { type := DocumentType.image
            textContent := none
            images := some [content]
            metadata := { originalFilename := filename, mimeType := mime,
                          size := size, pageCount := none }
            strategy := Strategy.vision
            requiresVision := true }

end ImageProcessor

namespace TextProcessor

/-- The `/^data:text\/[^;]+;base64,(.+)$/` match. -/
def textBase64Match (content : Str) : Option Str :=
  if begins ("data:text/".toList) content then
    let after := content.drop 10
    let mid := after.takeWhile (fun c => !(c = ';'))
    let rest0 := after.drop mid.length
    if !mid.isEmpty && begins ((";base64,").toList) rest0 then
      let rest := rest0.drop 8
      if !rest.isEmpty && rest.all (fun c => !(c = '\n' || c = '\r')) then
        some rest
      else none
    else none
  else none

/-- The `/^data:text\/[^,]+,(.+)$/` match: `[^,]+` necessarily stops at
the first comma. -/
def textPlainMatch (content : Str) : Option Str :=
  if begins ("data:text/".toList) content then
    let after := content.drop 10
    let mid := after.takeWhile (fun c => !(c = ','))
    let rest0 := after.drop mid.length
    if !mid.isEmpty && begins ([','] : Str) rest0 then
      let rest := rest0.drop 1
      if !rest.isEmpty && rest.all (fun c => !(c = '\n' || c = '\r')) then
        some rest
      else none
    else none
  else none

/-- JS `lastIndexOf(pat, pos)`: the largest start index `≤ pos` of an
occurrence of `pat`. -/
def lastIndexOfFrom (pat : Str) (s : Str) (pos : ℕ) : Option ℕ :=
  (List.range (pos + 1)).reverse.find? (fun i => begins pat (s.drop i))

/-- `breakPoint === -1 || breakPoint < targetLength * 0.7`, with a missing
match as `none`. The float product is compared at integer points via
`10 * b < 7 * t`. -/
def bpBad (bp : Option ℕ) (targetLength : ℕ) : Bool :=
  match bp with
  | none => true
  | some b => 10 * b < 7 * targetLength

def truncNotice : Str :=
  ("\n\n[Document truncated - showing first ~50,000 characters. "
    ++ "Contact information is typically in the first section.]").toList

/-- `smartTruncate`: prefer a paragraph break, then a line break, then a
sentence end (keeping the period), each no earlier than 70% of the target;
otherwise cut hard at the target; trim and append the notice. -/
def smartTruncate (text : Str) (maxLength : ℕ) : Str :=
  if text.length ≤ maxLength then text
  else
    let targetLength := maxLength - 100
    let bp1 := lastIndexOfFrom ['\n', '\n'] text targetLength
    let bp2 := if bpBad bp1 targetLength then
        lastIndexOfFrom ['\n'] text targetLength
      else bp1
    let bp3 := if bpBad bp2 targetLength then
        match lastIndexOfFrom ['.', ' '] text targetLength with
        | some b => some (b + 1)
        | none => none
      else bp2
    let bp4 := if bpBad bp3 targetLength then targetLength else bp3.getD 0
    jsTrim (text.take bp4) ++ truncNotice

/-- The `textContent` resolution at the top of `TextProcessor.process`:
base64 text data URL, URL-encoded text data URL, or the raw content.
`decode64` is the (total) Node base64 decoder; `decodeURI` is
`decodeURIComponent`, which can throw on malformed input. -/
def resolvedText (decode64 : Str → Str) (decodeURI : Str → Except Str Str)
    (content : Str) : Except Str Str :=
  if begins ("data:text/".toList) content then
    match textBase64Match content with
    | some b64 => Except.ok (decode64 b64)
    | none =>
      match textPlainMatch content with
      | some d => decodeURI d
      | none => Except.ok content
  else Except.ok content

/-- `TextProcessor.process`. -/
def textProcess (decode64 : Str → Str) (decodeURI : Str → Except Str Str)
    (content filename : Str) : ProcessorResult :=
  match resolvedText decode64 decodeURI content with
  | Except.error e =>
    ProcessorResult.failure ((("Text processing failed: ").toList ++ e))
  | Except.ok textContent =>
    if (jsTrim textContent).length < 10 then
      ProcessorResult.failure
        (("Text content too short. Please provide at least 10 characters."
          ).toList)
    else
      let text1 := if 50000 < textContent.length then
          smartTruncate textContent 50000
        else textContent
      ProcessorResult.success
        { type := DocumentType.text
          textContent := some text1
          images := none
          metadata := { originalFilename := filename,
                        mimeType := ("text/plain").toList,
                        size := text1.length, pageCount := none }
          strategy := Strategy.directText
          requiresVision := false }

end TextProcessor

/-- The spec's success invariant on `ProcessedDocument`: exactly one of
`textContent` / `images` is present and non-empty, and `requiresVision`
holds exactly when `images` is the populated side. -/
def wellFormedDoc (d : ProcessedDocument) : Bool :=
  match d.textContent, d.images with
  | some t, none => decide (t ≠ []) && !d.requiresVision
  | none, some l => decide (l ≠ []) && d.requiresVision
  | _, _ => false

theorem ne_nil_of_trim_len {t : Str} {n : ℕ} (hn : n ≠ 0)
    (h : n ≤ (jsTrim t).length) : t ≠ [] := by
  intro he
  subst he
  have h0 : jsTrim ([] : Str) = [] := rfl
  rw [h0] at h
  simp only [List.length_nil] at h
  omega

theorem smartTruncate_ne_nil (text : Str) (m : ℕ) (h : text ≠ []) :
    TextProcessor.smartTruncate text m ≠ [] := by
  unfold TextProcessor.smartTruncate
  by_cases h1 : text.length ≤ m
  · rw [if_pos h1]
    exact h
  · rw [if_neg h1]
    simp [TextProcessor.truncNotice]

/-- C9: every successful result of any of the five adapters satisfies the
`ProcessedDocument` invariant: exactly one of `textContent` / `images` is
present and non-empty, and `requiresVision` is true exactly when `images`
is the populated side. -/
theorem C9_processed_document_invariant :
    (∀ (env : PdfProcessor.PdfEnv) (content filename : Str)
       (doc : ProcessedDocument),
      PdfProcessor.pdfProcess env content filename
        = ProcessorResult.success doc → wellFormedDoc doc = true) ∧
    (∀ (mammoth : Except Str (Option Str)) (bufLen : ℕ)
       (content filename : Str) (doc : ProcessedDocument),
      WordProcessor.wordProcess mammoth bufLen content filename
        = ProcessorResult.success doc → wellFormedDoc doc = true) ∧
    (∀ (sheets : Except Str (List (Str × List (List Str)))) (bufLen : ℕ)
       (content filename : Str) (doc : ProcessedDocument),
      ExcelProcessor.excelProcess sheets bufLen content filename
        = ProcessorResult.success doc → wellFormedDoc doc = true) ∧
    (∀ (content filename : Str) (doc : ProcessedDocument),
      ImageProcessor.imageProcess content filename
        = ProcessorResult.success doc → wellFormedDoc doc = true) ∧
    (∀ (decode64 : Str → Str) (decodeURI : Str → Except Str Str)
       (content filename : Str) (doc : ProcessedDocument),
      TextProcessor.textProcess decode64 decodeURI content filename
        = ProcessorResult.success doc → wellFormedDoc doc = true) := by
  refine ⟨?_, ?_, ?_, ?_, ?_⟩
  · intro env content filename doc h
    rcases ht : env.thrown with _ | msg
    · simp only [PdfProcessor.pdfProcess, ht] at h
      rcases hm : PdfProcessor.pdfDataMatch content with _ | rest
      · simp [hm] at h
      · simp only [hm] at h
        by_cases hlen :
            100 ≤ (jsTrim (PdfProcessor.extractedText env)).length
        · rw [if_pos hlen] at h
          cases h
          have hne : PdfProcessor.extractedText env ≠ [] :=
            ne_nil_of_trim_len (by norm_num) hlen
          simp [wellFormedDoc, hne]
        · rw [if_neg hlen] at h
          by_cases hz : (PdfProcessor.rasterImages env).length = 0
          · rw [if_pos hz] at h
            simp at h
          · rw [if_neg hz] at h
            cases h
            have hne : PdfProcessor.rasterImages env ≠ [] := by
              intro hh
              exact hz (by rw [hh]; rfl)
            simp [wellFormedDoc, hne]
    · simp only [PdfProcessor.pdfProcess, ht] at h
      split_ifs at h
  · intro mammoth bufLen content filename doc h
    rcases hm : dataUrlBase64Match content with _ | rest
    · simp [WordProcessor.wordProcess, hm] at h
    · rcases mammoth with e | v
      · simp [WordProcessor.wordProcess, hm] at h
      · simp only [WordProcessor.wordProcess, hm] at h
        by_cases hlen :
            (jsTrim (if truthy v then v.getD [] else [])).length < 50
        · rw [if_pos hlen] at h
          simp at h
        · rw [if_neg hlen] at h
          cases h
          push_neg at hlen
          set t := (if truthy v then v.getD [] else []) with hts
          have hne : t ≠ [] := ne_nil_of_trim_len (by norm_num) hlen
          simp only [wellFormedDoc, Bool.not_false, Bool.and_true]
          rw [decide_eq_true_eq]
          split_ifs with htr
          · simp [WordProcessor.truncNote]
          · exact hne
  · intro sheets bufLen content filename doc h
    rcases hm : dataUrlBase64Match content with _ | rest
    · simp [ExcelProcessor.excelProcess, hm] at h
    · rcases sheets with e | ss
      · simp [ExcelProcessor.excelProcess, hm] at h
      · simp only [ExcelProcessor.excelProcess, hm] at h
        by_cases hz : ss.length = 0
        · rw [if_pos hz] at h
          simp at h
        · rw [if_neg hz] at h
          by_cases hlen :
              (jsTrim (joinSep (("\n\n---\n\n").toList)
                (((ss.filter (fun s => !(s.2.length = 0))).map
                    (fun s => ExcelProcessor.formatSheetAsText s.1 s.2)
                  ).filter (fun t => !(jsTrim t).isEmpty)))).length < 50
          · rw [if_pos hlen] at h
            simp at h
          · rw [if_neg hlen] at h
            cases h
            push_neg at hlen
            have hne := ne_nil_of_trim_len (n := 50) (by norm_num) hlen
            simp only [wellFormedDoc, Bool.not_false, Bool.and_true]
            rw [decide_eq_true_eq]
            split_ifs with htr
            · simp [ExcelProcessor.truncNote]
            · exact hne
  · intro content filename doc h
    rcases hm : ImageProcessor.imageMimeMatch content with _ | mime
    · simp [ImageProcessor.imageProcess, hm] at h
    · simp only [ImageProcessor.imageProcess, hm] at h
      by_cases hsup :
          (!DocumentRouter.SUPPORTED_IMAGE_TYPES.contains mime) = true
      · rw [if_pos hsup] at h
        simp at h
      · rw [if_neg hsup] at h
        by_cases hsz : 20971520
            < (3 * (((jsSplit ',' content).drop 1).headD []).length + 3) / 4
        · rw [if_pos hsz] at h
          simp at h
        · rw [if_neg hsz] at h
          cases h
          simp [wellFormedDoc]
  · intro decode64 decodeURI content filename doc h
    rcases htc : TextProcessor.resolvedText decode64 decodeURI content
      with e | textContent
    · simp [TextProcessor.textProcess, htc] at h
    · simp only [TextProcessor.textProcess, htc] at h
      by_cases hlen : (jsTrim textContent).length < 10
      · rw [if_pos hlen] at h
        simp at h
      · rw [if_neg hlen] at h
        cases h
        push_neg at hlen
        have hne : textContent ≠ [] :=
          ne_nil_of_trim_len (by norm_num) hlen
        simp only [wellFormedDoc, Bool.not_false, Bool.and_true]
        rw [decide_eq_true_eq]
        split_ifs with htr
        · exact smartTruncate_ne_nil _ _ hne
        · exact hne

def c9pdfDoc : ProcessedDocument :=
  { type := DocumentType.pdf
    textContent := some (List.replicate 100 'a')
    images := none
    metadata := { originalFilename := ['f'],
                  mimeType := ("application/pdf").toList,
                  size := 4, pageCount := some 2 }
    strategy := Strategy.textExtraction
    requiresVision := false }

def c9wordDoc : ProcessedDocument :=
  { type := DocumentType.text
    textContent := some (List.replicate 60 'b')
    images := none
    metadata := { originalFilename := ['f'],
                  mimeType := (("application/vnd.openxmlformats-office"
                    ++ "document.wordprocessingml.document").toList),
                  size := 1, pageCount := none }
    strategy := Strategy.textExtraction
    requiresVision := false }

def c9excelContent : Str :=
  (("data:application/vnd.openxmlformats-officedocument.spreadsheetml"
    ++ ".sheet;base64,AA==").toList)

def c9excelDoc : ProcessedDocument :=
  { type := DocumentType.text
    textContent := some ((("=== Sheet: S ===\n\n").toList
      ++ List.replicate 60 'c'))
    images := none
    metadata := { originalFilename := ['f'],
                  mimeType := (("application/vnd.openxmlformats-office"
                    ++ "document.spreadsheetml.sheet").toList),
                  size := 2, pageCount := none }
    strategy := Strategy.textExtraction
    requiresVision := false }

def c9imageContent : Str := ("data:image/png;base64,AAAA").toList

def c9imageDoc : ProcessedDocument :=
  { type := DocumentType.image
    textContent := none
    images := some [c9imageContent]
    metadata := { originalFilename := ['f'],
                  mimeType := ("image/png").toList,
                  size := 3, pageCount := none }
    strategy := Strategy.vision
    requiresVision := true }

def c9textContent : Str := ("Call sheet for Monday").toList

def c9textDoc : ProcessedDocument :=
  { type := DocumentType.text
    textContent := some c9textContent
    images := none
    metadata := { originalFilename := ['f'],
                  mimeType := ("text/plain").toList,
                  size := 21, pageCount := none }
    strategy := Strategy.directText
    requiresVision := false }

theorem C9_processed_document_invariant_witness :
    wellFormedDoc c9pdfDoc = true ∧ wellFormedDoc c9wordDoc = true ∧
    wellFormedDoc c9excelDoc = true ∧ wellFormedDoc c9imageDoc = true ∧
    wellFormedDoc c9textDoc = true :=
  ⟨C9_processed_document_invariant.1 c8okEnv c8content ['f'] c9pdfDoc
     (by decide),
   C9_processed_document_invariant.2.1
     (Except.ok (some (List.replicate 60 'b'))) 1 wordContent ['f']
     c9wordDoc (by decide),
   C9_processed_document_invariant.2.2.1
     (Except.ok [(['S'], [[List.replicate 60 'c']])]) 2 c9excelContent
     ['f'] c9excelDoc (by decide),
   C9_processed_document_invariant.2.2.2.1 c9imageContent ['f'] c9imageDoc
     (by decide),
   C9_processed_document_invariant.2.2.2.2 (fun _ => [])
     (fun _ => Except.ok []) c9textContent ['f'] c9textDoc (by decide)⟩
